import Mathlib

/-!
# Verification of the VTU-EduMate RAG pipeline

Shallow embedding of the repository's RAG subsystem:
chunker (`scripts/ingest_rag.ts`), embeddings/cosine similarity
(`lib/rag/embeddings.ts`), retriever (`lib/rag/retriever.ts`),
index store (`lib/rag/indexer.ts`), prompt builder
(`lib/rag/prompt_builder.ts`), generation client
(`lib/rag/gemini_client.ts`) and the query endpoint
(`app/api/rag/ask/route.ts`).

JavaScript strings are modelled as `List Char`; the JS helpers the code
relies on (`String.prototype.split` with a one-or-more character-class
regex, `String.prototype.trim`, `Array.prototype.slice` with a negative
argument) are modelled explicitly below, including their corner cases
(leading/trailing empty pieces from `split`, `slice(-0)` returning the
whole array).
-/

namespace VtuEduMate

/-- JavaScript strings, modelled as lists of characters. -/
abbrev JsStr := List Char

/-- Model of JS `str.split(/X+/)` for a character class `p`: the string is
cut at each maximal run of characters satisfying `p`; a leading run yields
a leading empty piece and a trailing run a trailing empty piece, and
`"".split` yields `[""]`.  `cur` is the reversed accumulator of the word
being read, `inSep` records whether the previous character belonged to a
separator run. -/
def goSplit (p : Char → Bool) : JsStr → List Char → Bool → List JsStr
  | [], cur, _ => [cur.reverse]
  | c :: rest, cur, inSep =>
    if p c then
      if inSep then goSplit p rest [] true
      else cur.reverse :: goSplit p rest [] true
    else goSplit p rest (c :: cur) false

/-- JS `s.split(/X+/)` where `X` is the character class `p`. -/
def splitRuns (p : Char → Bool) (s : JsStr) : List JsStr :=
  goSplit p s [] false

/-- The whitespace class of the regex `\s`. -/
def isWsChar (c : Char) : Bool := c.isWhitespace

/-- The sentence-delimiter class `[.!?]` used by `chunkText`. -/
def isSentDelim (c : Char) : Bool := c = '.' || c = '!' || c = '?'

/-- JS `s.split(/\s+/)`. -/
def jsSplitWs (s : JsStr) : List JsStr := splitRuns isWsChar s

/-- JS `s.trim()`: drop leading and trailing whitespace. -/
def jsTrim (s : JsStr) : JsStr :=
  ((s.dropWhile isWsChar).reverse.dropWhile isWsChar).reverse

/-- `countWords` from `scripts/ingest_rag.ts`:
`text.split(/\s+/).filter(word => word.length > 0).length`. -/
def countWords (text : JsStr) : Nat :=
  ((jsSplitWs text).filter (fun w => w.length > 0)).length

/-- JS `words.join(' ')`. -/
def joinSpace : List JsStr → JsStr
  | [] => []
  | [w] => w
  | w :: ws => w ++ ' ' :: joinSpace ws

/-- JS `words.slice(-n)`.  For `n = 0`, `slice(-0)` is `slice(0)` and
returns the whole array (JS `-0 === 0`); otherwise it returns the last
`n` elements (all of them when `n ≥ length`). -/
def jsSliceNeg (ws : List JsStr) (n : Nat) : List JsStr :=
  if n = 0 then ws else ws.drop (ws.length - n)

/-- `getOverlapText` from `scripts/ingest_rag.ts`: the last `overlapWords`
whitespace-separated words of `text`, or `text` itself when it has no more
than `overlapWords` words. -/
def getOverlapText (text : JsStr) (overlapWords : Nat) : JsStr :=
  let words := jsSplitWs text
  if words.length ≤ overlapWords then text
  else joinSpace (jsSliceNeg words overlapWords)

/-- A document chunk as produced by `createChunk` (the metadata fields not
used by any claim — `unit`, `created_at` — are omitted; the id is
`"{filename}_chunk_{index}"`). -/
structure Chunk where
  id : String
  text : JsStr
  deriving Repr, DecidableEq

/-- `createChunk` from `scripts/ingest_rag.ts` (id and text parts). -/
def createChunk (text : JsStr) (filename : String) (index : Nat) : Chunk :=
  { id := filename ++ "_chunk_" ++ toString index, text := text }

/-- The mutable state of the sentence loop in `chunkText`. -/
structure ChunkState where
  currentChunk : JsStr
  currentWordCount : Nat
  chunkIndex : Nat
  chunks : List Chunk
  deriving Repr

/-- One iteration of the sentence loop of `chunkText`: `sRaw` is
`sentences[i]`; the loop body either emits the buffer as a chunk and
reseeds it with the overlap text plus the sentence, or appends the
sentence to the buffer. -/
def processSentence (filename : String) (chunkSizeWords overlapWords : Nat)
    (st : ChunkState) (sRaw : JsStr) : ChunkState :=
  let sentence := jsTrim sRaw ++ ['.']
  let sentenceWords := (jsSplitWs sentence).length
  if st.currentWordCount + sentenceWords > chunkSizeWords ∧ st.currentChunk.length > 0 then
    let emitted := createChunk (jsTrim st.currentChunk) filename st.chunkIndex
    let overlapText := getOverlapText st.currentChunk overlapWords
    let newChunk := overlapText ++ (if overlapText.length > 0 then [' '] else []) ++ sentence
    { currentChunk := newChunk
      currentWordCount := countWords newChunk
      chunkIndex := st.chunkIndex + 1
      chunks := st.chunks ++ [emitted] }
  else
    { st with
      currentChunk := st.currentChunk ++ (if st.currentChunk.length > 0 then [' '] else []) ++ sentence
      currentWordCount := st.currentWordCount + sentenceWords }

/-- `chunkText` from `scripts/ingest_rag.ts`: split `text` into sentences
at runs of `.!?`, drop blank sentences, greedily pack sentences into a
buffer of at most `chunkSizeWords` words (emitting the buffer and
reseeding it with the last `overlapWords` words when it would overflow),
and emit the trailing buffer as a final chunk. -/
def chunkText (text : JsStr) (filename : String)
    (chunkSizeWords overlapWords : Nat) : List Chunk :=
  let sentences := (splitRuns isSentDelim text).filter (fun s => (jsTrim s).length > 0)
  let final := sentences.foldl (processSentence filename chunkSizeWords overlapWords)
    ⟨[], 0, 0, []⟩
  if (jsTrim final.currentChunk).length > 0 then
    final.chunks ++ [createChunk (jsTrim final.currentChunk) filename final.chunkIndex]
  else
    final.chunks

/-!
## Embeddings service (`lib/rag/embeddings.ts`)

`cosineSimilarity(a, b)` loops once over the two arrays accumulating
`dotProduct`, `normA = Σ aᵢ²`, `normB = Σ bᵢ²`, then returns
`dotProduct / (√normA * √normB)` when that denominator is positive and
`0` otherwise; it throws when the lengths differ.  JS floating point is
idealised as `ℝ`.
-/

/-- The accumulated `dotProduct` of the loop in `cosineSimilarity`. -/
def dotp (a b : List ℝ) : ℝ := (List.zipWith (· * ·) a b).sum

/-- The accumulated `normA` (resp. `normB`) of the loop in
`cosineSimilarity`: the sum of squares of the entries. -/
def sqSum (a : List ℝ) : ℝ := (a.map (fun x => x * x)).sum

/-- The body of `cosineSimilarity` after the length check: the
`magnitude` is `√normA * √normB`. -/
noncomputable def cosineSimRaw (a b : List ℝ) : ℝ :=
  if Real.sqrt (sqSum a) * Real.sqrt (sqSum b) > 0 then
    dotp a b / (Real.sqrt (sqSum a) * Real.sqrt (sqSum b))
  else 0

/-- `cosineSimilarity` from `lib/rag/embeddings.ts`, including the
length-mismatch throw. -/
noncomputable def cosineSimilarity (a b : List ℝ) : Except String ℝ :=
  if a.length ≠ b.length then .error "Vectors must have same length"
  else .ok (cosineSimRaw a b)

theorem sqSum_nonneg (a : List ℝ) : 0 ≤ sqSum a := by
  induction a with
  | nil => simp [sqSum]
  | cons x xs ih =>
    simp only [sqSum, List.map_cons, List.sum_cons]
    have := mul_self_nonneg x
    unfold sqSum at ih
    nlinarith

theorem dotp_self (a : List ℝ) : dotp a a = sqSum a := by
  induction a with
  | nil => simp [dotp, sqSum]
  | cons x xs ih =>
    simp only [dotp, sqSum, List.zipWith_cons_cons, List.map_cons, List.sum_cons] at ih ⊢
    linarith

/-- The Cauchy–Schwarz inductive step, in the form needed below. -/
theorem cs_step (x y S A B : ℝ) (hA : 0 ≤ A) (hB : 0 ≤ B) (hS : S ^ 2 ≤ A * B) :
    (x * y + S) ^ 2 ≤ (x * x + A) * (y * y + B) := by
  rcases hA.eq_or_gt with h0 | hpos
  · have h2 : S ^ 2 = 0 := le_antisymm (by nlinarith) (sq_nonneg S)
    have hS0 : S = 0 := by
      have := sq_eq_zero_iff.mp h2
      exact this
    subst hS0
    nlinarith [mul_nonneg (mul_self_nonneg x) hB]
  · nlinarith [sq_nonneg (x * S - y * A), mul_nonneg hA (sub_nonneg.2 hS),
      mul_nonneg (mul_self_nonneg x) (sub_nonneg.2 hS)]

/-- Cauchy–Schwarz for the accumulated sums (holds for any two lists:
`zipWith` truncates to the shorter one and dropped squares only grow the
right-hand side). -/
theorem dotp_sq_le (a : List ℝ) : ∀ b : List ℝ, (dotp a b) ^ 2 ≤ sqSum a * sqSum b := by
  induction a with
  | nil => intro b; simp [dotp, sqSum]
  | cons x xs ih =>
    intro b
    cases b with
    | nil => simp [dotp, sqSum]
    | cons y ys =>
      have hS := ih ys
      have hA := sqSum_nonneg xs
      have hB := sqSum_nonneg ys
      simp only [dotp, sqSum, List.zipWith_cons_cons, List.map_cons, List.sum_cons]
        at hS hA hB ⊢
      exact cs_step x y _ _ _ hA hB hS

theorem sqSum_pos_of_nonzero {a : List ℝ} {x : ℝ} (hx : x ∈ a) (hne : x ≠ 0) :
    0 < sqSum a := by
  induction a with
  | nil => simp at hx
  | cons z zs ih =>
    simp only [sqSum, List.map_cons, List.sum_cons]
    rcases List.mem_cons.1 hx with h | h
    · subst h
      have h1 : 0 < x * x := mul_self_pos.mpr hne
      have h2 := sqSum_nonneg zs
      unfold sqSum at h2
      linarith
    · have h1 := ih h
      unfold sqSum at h1
      nlinarith [mul_self_nonneg z]

theorem cosineSimRaw_mem_Icc (a b : List ℝ) :
    -1 ≤ cosineSimRaw a b ∧ cosineSimRaw a b ≤ 1 := by
  unfold cosineSimRaw
  by_cases hM : Real.sqrt (sqSum a) * Real.sqrt (sqSum b) > 0
  · rw [if_pos hM]
    have hA := sqSum_nonneg a
    have hB := sqSum_nonneg b
    have hM2 : (Real.sqrt (sqSum a) * Real.sqrt (sqSum b)) ^ 2 = sqSum a * sqSum b := by
      rw [mul_pow, Real.sq_sqrt hA, Real.sq_sqrt hB]
    have hd : (dotp a b) ^ 2 ≤ (Real.sqrt (sqSum a) * Real.sqrt (sqSum b)) ^ 2 := by
      rw [hM2]; exact dotp_sq_le a b
    have h1 : dotp a b ≤ Real.sqrt (sqSum a) * Real.sqrt (sqSum b) := by nlinarith
    have h2 : -(Real.sqrt (sqSum a) * Real.sqrt (sqSum b)) ≤ dotp a b := by nlinarith
    constructor
    · rw [le_div_iff₀ hM]; linarith
    · rw [div_le_one hM]; exact h1
  · rw [if_neg hM]; norm_num

theorem cosineSimRaw_self {a : List ℝ} {x : ℝ} (hx : x ∈ a) (hne : x ≠ 0) :
    cosineSimRaw a a = 1 := by
  have hpos : 0 < sqSum a := sqSum_pos_of_nonzero hx hne
  have hM : Real.sqrt (sqSum a) * Real.sqrt (sqSum a) = sqSum a :=
    Real.mul_self_sqrt hpos.le
  have hMpos : Real.sqrt (sqSum a) * Real.sqrt (sqSum a) > 0 := by rw [hM]; exact hpos
  unfold cosineSimRaw
  rw [if_pos hMpos, dotp_self, hM, div_self hpos.ne']

theorem cosineSimRaw_zero {a b : List ℝ}
    (h : Real.sqrt (sqSum a) = 0 ∨ Real.sqrt (sqSum b) = 0) :
    cosineSimRaw a b = 0 := by
  have hM : Real.sqrt (sqSum a) * Real.sqrt (sqSum b) = 0 := by
    rcases h with h | h <;> rw [h] <;> ring
  unfold cosineSimRaw
  rw [hM]
  norm_num

/-- C2: for vectors of equal length `cosineSimilarity` succeeds and its
value lies in `[-1, 1]`; on a nonzero vector, `cosineSimilarity a a`
is exactly `1`; and whenever either argument has zero norm the result is
`0` (the division is never taken). -/
theorem claim_C2_cosine_similarity :
    (∀ a b : List ℝ, a.length = b.length →
      ∃ r, cosineSimilarity a b = .ok r ∧ -1 ≤ r ∧ r ≤ 1) ∧
    (∀ (a : List ℝ) (x : ℝ), x ∈ a → x ≠ 0 → cosineSimilarity a a = .ok 1) ∧
    (∀ a b : List ℝ, a.length = b.length →
      Real.sqrt (sqSum a) = 0 ∨ Real.sqrt (sqSum b) = 0 →
      cosineSimilarity a b = .ok 0) := by
  refine ⟨fun a b hlen => ?_, fun a x hx hne => ?_, fun a b hlen h => ?_⟩
  · exact ⟨cosineSimRaw a b, by simp [cosineSimilarity, hlen],
      (cosineSimRaw_mem_Icc a b).1, (cosineSimRaw_mem_Icc a b).2⟩
  · simp [cosineSimilarity, cosineSimRaw_self hx hne]
  · simp [cosineSimilarity, hlen, cosineSimRaw_zero h]

/-- Witness for C2 at concrete vectors. -/
theorem claim_C2_cosine_similarity_witness :
    (∃ r, cosineSimilarity [1, 0] [0, 1] = .ok r ∧ -1 ≤ r ∧ r ≤ 1) ∧
    cosineSimilarity [2] [2] = .ok 1 ∧
    cosineSimilarity [0] [5] = .ok 0 := by
  refine ⟨claim_C2_cosine_similarity.1 [1, 0] [0, 1] rfl,
    claim_C2_cosine_similarity.2.1 [2] 2 (by simp) (by norm_num),
    claim_C2_cosine_similarity.2.2 [0] [5] rfl (Or.inl ?_)⟩
  have : sqSum [(0 : ℝ)] = 0 := by simp [sqSum]
  rw [this, Real.sqrt_zero]

/-!
## Retriever (`lib/rag/retriever.ts`)

`retrieve(question, k)` loads the index (throwing when there is none),
embeds the query, scores every chunk with `cosineSimilarity`, sorts
descending by score, takes the top `k`, and gates confidence on the
average top-`k` score.  The query embedding is an external call and is
passed in as a value; the similarity function is a parameter so that the
order-theoretic facts hold for the actual `cosineSimRaw` over `ℝ` as well
as for computable instantiations.  The wall-clock `search_time_ms` field
is I/O and is omitted.
-/

/-- The `metadata` record carried by an indexed chunk / retrieval result. -/
structure RRMeta where
  source : String
  page : Option Nat
  unit : Option String
  chunk_id : String
  created_at : String
  deriving Repr, DecidableEq

/-- `IndexedChunk` from `lib/rag/indexer.ts`. -/
structure IndexedChunk (α : Type) where
  id : String
  text : String
  metadata : RRMeta
  embedding : List α
  deriving Repr, DecidableEq

/-- `RetrievalResult` from `lib/rag/retriever.ts`. -/
structure RetrievalResult (α : Type) where
  id : String
  score : α
  metadata : RRMeta
  text : String
  deriving Repr, DecidableEq

/-- The `metadata` block of a `RetrievalResponse` (without the wall-clock
`search_time_ms`). -/
structure RetrievalMeta (α : Type) where
  total_chunks : Nat
  top_k : Nat
  min_similarity : α
  average_score : α
  deriving Repr, DecidableEq

/-- `RetrievalResponse` from `lib/rag/retriever.ts`. -/
structure RetrievalResponse (α : Type) where
  results : List (RetrievalResult α)
  confidence : Bool
  query : String
  metadata : RetrievalMeta α
  deriving Repr, DecidableEq

/-- The descending-score comparison used by
`similarities.sort((a, b) => b.score - a.score)`. -/
def scoreDesc {α : Type} [LinearOrder α] (p q : IndexedChunk α × α) : Prop :=
  q.2 ≤ p.2

instance {α : Type} [LinearOrder α] : DecidableRel (@scoreDesc α _) :=
  fun p q => inferInstanceAs (Decidable (q.2 ≤ p.2))

instance {α : Type} [LinearOrder α] : IsTotal (IndexedChunk α × α) scoreDesc :=
  ⟨fun p q => le_total q.2 p.2⟩

instance {α : Type} [LinearOrder α] : IsTrans (IndexedChunk α × α) scoreDesc :=
  ⟨fun _ _ _ hab hbc => le_trans hbc hab⟩

/-- The body of `retrieve` after the index has been loaded and the query
embedded: score all chunks, sort descending, take the top `k`, compute
the average score and the confidence gate, and format the results. -/
def retrieveCore {α : Type} [LinearOrderedField α]
    (sim : List α → List α → α) (queryEmbedding : List α)
    (chunks : List (IndexedChunk α)) (k : Nat) (minSim : α)
    (question : String) : RetrievalResponse α :=
  let similarities := chunks.map (fun c => (c, sim queryEmbedding c.embedding))
  let sorted := similarities.insertionSort scoreDesc
  let topResults := sorted.take k
  let averageScore :=
    if topResults.length > 0 then
      (topResults.map (fun r => r.2)).sum / (topResults.length : α)
    else 0
  { results := topResults.map (fun r => ⟨r.1.id, r.2, r.1.metadata, r.1.text⟩)
    confidence := decide (averageScore ≥ minSim)
    query := question
    metadata := ⟨chunks.length, k, minSim, averageScore⟩ }

/-- The mean score of a result list, `0` when it is empty (the quantity
the spec's confidence gate is stated about). -/
def meanScore {α : Type} [LinearOrderedField α] (rs : List (RetrievalResult α)) : α :=
  if rs.length > 0 then (rs.map (fun r => r.score)).sum / (rs.length : α) else 0

/-- C4: the retriever's result list is sorted in non-increasing score
order and contains at most `k` elements. -/
theorem claim_C4_ranking_invariant {α : Type} [LinearOrderedField α]
    (sim : List α → List α → α) (queryEmbedding : List α)
    (chunks : List (IndexedChunk α)) (k : Nat) (minSim : α) (question : String) :
    List.Sorted (fun x y => y.score ≤ x.score)
      ((retrieveCore sim queryEmbedding chunks k minSim question).results) ∧
    (retrieveCore sim queryEmbedding chunks k minSim question).results.length ≤ k := by
  constructor
  · have hs : List.Sorted scoreDesc
        ((chunks.map (fun c => (c, sim queryEmbedding c.embedding))).insertionSort scoreDesc) :=
      List.sorted_insertionSort scoreDesc _
    have ht : List.Sorted scoreDesc
        (((chunks.map (fun c => (c, sim queryEmbedding c.embedding))).insertionSort
          scoreDesc).take k) :=
      List.Pairwise.sublist (List.take_sublist k _) hs
    simp only [retrieveCore, List.Sorted, List.pairwise_map]
    exact ht
  · simp only [retrieveCore, List.length_map, List.length_take]
    exact min_le_left _ _

/-- C3: the retriever's confidence flag is `true` exactly when the mean
score of the returned results reaches the minimum-similarity threshold,
and in particular the boundary case (mean = threshold) yields `true`. -/
theorem claim_C3_confidence_gate {α : Type} [LinearOrderedField α]
    (sim : List α → List α → α) (queryEmbedding : List α)
    (chunks : List (IndexedChunk α)) (k : Nat) (minSim : α) (question : String) :
    ((retrieveCore sim queryEmbedding chunks k minSim question).confidence = true ↔
      minSim ≤ meanScore (retrieveCore sim queryEmbedding chunks k minSim question).results) ∧
    (meanScore (retrieveCore sim queryEmbedding chunks k minSim question).results = minSim →
      (retrieveCore sim queryEmbedding chunks k minSim question).confidence = true) := by
  have hmean : meanScore (retrieveCore sim queryEmbedding chunks k minSim question).results =
      (retrieveCore sim queryEmbedding chunks k minSim question).metadata.average_score := by
    simp only [retrieveCore, meanScore, List.map_map, List.length_map]
    rfl
  constructor
  · rw [hmean]
    simp only [retrieveCore, ge_iff_le, decide_eq_true_eq]
  · intro h
    rw [hmean] at h
    simp only [retrieveCore, ge_iff_le, decide_eq_true_eq] at h ⊢
    exact le_of_eq h.symm

/-- Witness for C3's boundary case at a concrete computable input: one
chunk scored exactly at the threshold `1/4` makes the gate fire. -/
theorem claim_C3_confidence_gate_witness :
    meanScore (retrieveCore (α := ℚ) (fun _ _ => 1/4) [1]
      [⟨"c1", "t", ⟨"s", none, none, "cid", "now"⟩, [1]⟩] 1 (1/4) "q").results = 1/4 ∧
    (retrieveCore (α := ℚ) (fun _ _ => 1/4) [1]
      [⟨"c1", "t", ⟨"s", none, none, "cid", "now"⟩, [1]⟩] 1 (1/4) "q").confidence = true := by
  have h : meanScore (retrieveCore (α := ℚ) (fun _ _ => 1/4) [1]
      [⟨"c1", "t", ⟨"s", none, none, "cid", "now"⟩, [1]⟩] 1 (1/4) "q").results = 1/4 := by
    simp [retrieveCore, meanScore, List.insertionSort, List.orderedInsert]
  exact ⟨h, (claim_C3_confidence_gate (α := ℚ) (fun _ _ => 1/4) [1]
    [⟨"c1", "t", ⟨"s", none, none, "cid", "now"⟩, [1]⟩] 1 (1/4) "q").2 h⟩

/-!
## Index store (`lib/rag/indexer.ts`) and the head of `retrieve`

`loadIndex` dispatches on the driver name inside a `try`/`catch` that
returns `null` on any failure (including the `throw` for an unsupported
driver); `loadJsonIndex` reads and `JSON.parse`s the snapshot file,
returning `null` when either step fails.  File reading and JSON parsing
are external effects, passed in as values.  `retrieve` throws
`'No RAG index found. Please run the ingestion script first.'` when
`loadIndex` resolves to `null`.
-/

/-- The `metadata` block of an `IndexData` snapshot. -/
structure IndexMeta where
  driver : String
  created_at : String
  updated_at : String
  chunk_count : Nat
  embedding_model : String
  deriving Repr, DecidableEq

/-- `IndexData` from `lib/rag/indexer.ts`. -/
structure IndexData (α : Type) where
  chunks : List (IndexedChunk α)
  metadata : IndexMeta
  deriving Repr, DecidableEq

/-- `loadJsonIndex`: `readFile` then `JSON.parse`, `null` on any error. -/
def loadJsonIndex {α : Type} (readFile : Except String String)
    (parseJson : String → Except String (IndexData α)) : Option (IndexData α) :=
  match readFile with
  | .error _ => none
  | .ok s =>
    match parseJson s with
    | .error _ => none
    | .ok d => some d

/-- `loadIndex`: driver dispatch inside a `try`/`catch` that turns every
failure (including the unsupported-driver `throw`) into `null`.  The
`faiss` and `chroma` drivers fall back to the JSON implementation. -/
def loadIndex {α : Type} (driver : String) (readFile : Except String String)
    (parseJson : String → Except String (IndexData α)) : Option (IndexData α) :=
  if driver = "json" then loadJsonIndex readFile parseJson
  else if driver = "faiss" then loadJsonIndex readFile parseJson
  else if driver = "chroma" then loadJsonIndex readFile parseJson
  else none

/-- `retrieve` from `lib/rag/retriever.ts`: throw when no index is
loaded, otherwise score/sort/gate via `retrieveCore` with the real
cosine similarity. -/
noncomputable def retrieve (loaded : Option (IndexData ℝ)) (queryEmbedding : List ℝ)
    (k : Nat) (minSim : ℝ) (question : String) : Except String (RetrievalResponse ℝ) :=
  match loaded with
  | none => .error "No RAG index found. Please run the ingestion script first."
  | some d => .ok (retrieveCore cosineSimRaw queryEmbedding d.chunks k minSim question)

/-- C9: when the snapshot file is missing or unparseable, `loadIndex`
resolves to `none` (it never raises), and `retrieve` on that result
rejects with the no-index error rather than succeeding with an empty
result set. -/
theorem claim_C9_no_index (driver : String) (readFile : Except String String)
    (parseJson : String → Except String (IndexData ℝ))
    (queryEmbedding : List ℝ) (k : Nat) (minSim : ℝ) (question : String)
    (h : (∃ e, readFile = .error e) ∨
      (∃ s e, readFile = .ok s ∧ parseJson s = .error e)) :
    loadIndex driver readFile parseJson = none ∧
    retrieve (loadIndex driver readFile parseJson) queryEmbedding k minSim question =
      .error "No RAG index found. Please run the ingestion script first." := by
  have hnone : loadIndex driver readFile parseJson = none := by
    have hjson : loadJsonIndex readFile parseJson = (none : Option (IndexData ℝ)) := by
      rcases h with ⟨e, he⟩ | ⟨s, e, hs, hp⟩
      · simp [loadJsonIndex, he]
      · simp [loadJsonIndex, hs, hp]
    unfold loadIndex
    split_ifs <;> simp [hjson]
  exact ⟨hnone, by rw [hnone]; rfl⟩

/-- Witness for C9: a missing snapshot file under the default `json`
driver. -/
theorem claim_C9_no_index_witness :
    loadIndex (α := ℝ) "json" (.error "ENOENT") (fun _ => .error "unreachable") = none ∧
    retrieve (loadIndex "json" (.error "ENOENT") (fun _ => .error "unreachable"))
      [] 5 (1/4) "test query" =
      .error "No RAG index found. Please run the ingestion script first." :=
  claim_C9_no_index "json" (.error "ENOENT") (fun _ => .error "unreachable")
    [] 5 (1/4) "test query" (Or.inl ⟨"ENOENT", rfl⟩)

/-!
## Prompt builder (`lib/rag/prompt_builder.ts`)

`buildContextSection` walks the ranked results in order, estimating each
block's cost as `ceil(length / 4)` tokens, and stops as soon as adding a
block would push the running estimate past `maxTokens` — except that the
block at position `0` is appended unconditionally (the guard is
`estimatedTokens + chunkTokens > maxTokens && i > 0`).  The running
estimate starts at a base overhead of `50`.  `score.toFixed(3)` is a JS
library formatter and is passed in as a function value. -/

/-- The `sourceId` built for each chunk:
`${source}${page ? `:p${page}` : ''}` (JS treats page `0` as falsy). -/
def pbSourceId {α : Type} (c : RetrievalResult α) : String :=
  c.metadata.source ++
    (match c.metadata.page with
     | some p => if p ≠ 0 then ":p" ++ toString p else ""
     | none => "")

/-- The optional metadata line (`page || 'N/A'` and `unit || 'N/A'`
treat `0` and `''` as falsy). -/
def pbMetadataLine {α : Type} (formatScore : α → String) (c : RetrievalResult α) : String :=
  "Source: " ++ c.metadata.source ++ ", Page: " ++
    (match c.metadata.page with
     | some p => if p ≠ 0 then toString p else "N/A"
     | none => "N/A") ++
    ", Unit: " ++
    (match c.metadata.unit with
     | some u => if u ≠ "" then u else "N/A"
     | none => "N/A") ++
    ", Score: " ++ formatScore c.score ++ "\n"

/-- One context block: source header, optional metadata line, chunk text
and a blank line. -/
def pbChunkBlock {α : Type} (formatScore : α → String) (includeMetadata : Bool)
    (c : RetrievalResult α) : String :=
  "[" ++ pbSourceId c ++ "]\n" ++
    (if includeMetadata then pbMetadataLine formatScore c else "") ++
    c.text ++ "\n\n"

/-- `Math.ceil(chunkText.length / 4)`: the token estimate of one block. -/
def pbChunkTokens {α : Type} (formatScore : α → String) (includeMetadata : Bool)
    (c : RetrievalResult α) : Nat :=
  ((pbChunkBlock formatScore includeMetadata c).length + 3) / 4

/-- The value returned by `buildContextSection`. -/
structure ContextSection where
  contextText : String
  sources : List String
  estimatedTokens : Nat
  deriving Repr, DecidableEq

/-- The `for` loop of `buildContextSection`: `i` is the loop index,
`ctx`/`toks`/`srcs` the accumulators; the loop `break`s when a block
would overflow the budget and `i > 0`. -/
def bcsGo {α : Type} (formatScore : α → String) (includeMetadata : Bool) (maxTokens : Nat) :
    List (RetrievalResult α) → Nat → String → Nat → List String → ContextSection
  | [], _, ctx, toks, srcs => ⟨ctx, srcs, toks⟩
  | c :: rest, i, ctx, toks, srcs =>
    let block := pbChunkBlock formatScore includeMetadata c
    let ct := (block.length + 3) / 4
    if toks + ct > maxTokens ∧ i > 0 then ⟨ctx, srcs, toks⟩
    else bcsGo formatScore includeMetadata maxTokens rest (i + 1)
      (ctx ++ block) (toks + ct) (srcs ++ [pbSourceId c])

/-- `buildContextSection` from `lib/rag/prompt_builder.ts`. -/
def buildContextSection {α : Type} (formatScore : α → String)
    (chunks : List (RetrievalResult α)) (maxTokens : Nat) (includeMetadata : Bool) :
    ContextSection :=
  bcsGo formatScore includeMetadata maxTokens chunks 0 "CONTEXT INFORMATION:\n\n" 50 []

/-- The cost the loop assigns to the first block (`0` for an empty
result list). -/
def pbFirstCost {α : Type} (formatScore : α → String) (includeMetadata : Bool) :
    List (RetrievalResult α) → Nat
  | [] => 0
  | c :: _ => pbChunkTokens formatScore includeMetadata c

theorem bcsGo_sources_prefix {α : Type} (formatScore : α → String)
    (includeMetadata : Bool) (maxTokens : Nat) :
    ∀ (chunks : List (RetrievalResult α)) (i : Nat) (ctx : String) (toks : Nat)
      (srcs : List String),
      ∃ n, (bcsGo formatScore includeMetadata maxTokens chunks i ctx toks srcs).sources
        = srcs ++ (chunks.take n).map pbSourceId := by
  intro chunks
  induction chunks with
  | nil => intro i ctx toks srcs; exact ⟨0, by simp [bcsGo]⟩
  | cons c rest ih =>
    intro i ctx toks srcs
    by_cases hbr : toks + ((pbChunkBlock formatScore includeMetadata c).length + 3) / 4
        > maxTokens ∧ i > 0
    · exact ⟨0, by simp [bcsGo, hbr]⟩
    · obtain ⟨n, hn⟩ := ih (i + 1) (ctx ++ pbChunkBlock formatScore includeMetadata c)
        (toks + ((pbChunkBlock formatScore includeMetadata c).length + 3) / 4)
        (srcs ++ [pbSourceId c])
      refine ⟨n + 1, ?_⟩
      simp only [bcsGo, if_neg hbr]
      rw [hn]
      simp [List.take_cons]

theorem bcsGo_tokens_le {α : Type} (formatScore : α → String)
    (includeMetadata : Bool) (maxTokens : Nat) :
    ∀ (chunks : List (RetrievalResult α)) (i : Nat) (ctx : String) (toks : Nat)
      (srcs : List String), 1 ≤ i →
      (bcsGo formatScore includeMetadata maxTokens chunks i ctx toks srcs).estimatedTokens
        ≤ max toks maxTokens := by
  intro chunks
  induction chunks with
  | nil => intro i ctx toks srcs _; simp [bcsGo]
  | cons c rest ih =>
    intro i ctx toks srcs hi
    by_cases hbr : toks + ((pbChunkBlock formatScore includeMetadata c).length + 3) / 4
        > maxTokens ∧ i > 0
    · simp [bcsGo, hbr]
    · have hfit : toks + ((pbChunkBlock formatScore includeMetadata c).length + 3) / 4
          ≤ maxTokens := by
        rcases not_and_or.1 hbr with h | h
        · omega
        · omega
      simp only [bcsGo, if_neg hbr]
      calc (bcsGo formatScore includeMetadata maxTokens rest (i + 1)
              (ctx ++ pbChunkBlock formatScore includeMetadata c)
              (toks + ((pbChunkBlock formatScore includeMetadata c).length + 3) / 4)
              (srcs ++ [pbSourceId c])).estimatedTokens
          ≤ max (toks + ((pbChunkBlock formatScore includeMetadata c).length + 3) / 4)
              maxTokens := ih _ _ _ _ (by omega)
        _ ≤ max toks maxTokens := by omega

/-- The whole loop on a single-element result list: the block at
position `0` is charged unconditionally. -/
theorem buildContextSection_singleton {α : Type} (f : α → String) (im : Bool)
    (maxTokens : Nat) (c : RetrievalResult α) :
    (buildContextSection f [c] maxTokens im).estimatedTokens
      = 50 + pbChunkTokens f im c := by
  simp [buildContextSection, bcsGo, pbChunkTokens]

theorem replicate_string_length (n : Nat) (ch : Char) :
    (String.mk (List.replicate n ch)).length = n := by
  rw [String.length_mk, List.length_replicate]

/-- The length of a metadata-free context block for a page-less chunk
with a one-character source name. -/
theorem pbChunkBlock_length_no_meta {α : Type} (f : α → String) (score : α)
    (n : Nat) (ch : Char) (i cid ca : String) :
    (pbChunkBlock f false
      ⟨i, score, ⟨"s", none, none, cid, ca⟩, String.mk (List.replicate n ch)⟩).length
      = n + 6 := by
  show ("[" ++ (pbSourceId (α := α) ⟨i, score, ⟨"s", none, none, cid, ca⟩,
      String.mk (List.replicate n ch)⟩ ++ ("]\n" ++ ("" ++
      (String.mk (List.replicate n ch) ++ "\n\n"))))).length = n + 6
  rw [String.length_append, String.length_append, String.length_append,
    String.length_append, String.length_append, replicate_string_length]
  have hsid : pbSourceId (α := α) ⟨i, score, ⟨"s", none, none, cid, ca⟩,
      String.mk (List.replicate n ch)⟩ = "s" := rfl
  rw [hsid]
  have h1 : "[".length = 1 := rfl
  have h2 : "s".length = 1 := rfl
  have h3 : "]\n".length = 2 := rfl
  have h4 : "".length = 0 := rfl
  have h5 : "\n\n".length = 2 := rfl
  omega

/-- The token estimate of a metadata-free block for a page-less chunk
with a one-character source name. -/
theorem pbChunkTokens_no_meta {α : Type} (f : α → String) (score : α)
    (n : Nat) (ch : Char) (i cid ca : String) :
    pbChunkTokens f false
      ⟨i, score, ⟨"s", none, none, cid, ca⟩, String.mk (List.replicate n ch)⟩
      = (n + 6 + 3) / 4 := by
  simp only [pbChunkTokens]
  rw [pbChunkBlock_length_no_meta]

/-- C6 counterexample: the first block is appended unconditionally, so a
large first chunk pushes the estimate past `maxContextTokens` plus the
base overhead of `50` (here: 10052 tokens against a budget of 0). -/
theorem claim_C6_token_budget_counterexample :
    (buildContextSection (α := ℚ) (fun _ => "0.000")
        [⟨"c1", 1, ⟨"s", none, none, "cid", "now"⟩,
          String.mk (List.replicate 40000 'x')⟩] 0 false).estimatedTokens
      > 0 + 50 := by
  have h1 := buildContextSection_singleton (α := ℚ) (fun _ => "0.000") false 0
    ⟨"c1", 1, ⟨"s", none, none, "cid", "now"⟩, String.mk (List.replicate 40000 'x')⟩
  have h3 := pbChunkTokens_no_meta (α := ℚ) (fun _ => "0.000") 1 40000 'x' "c1" "cid" "now"
  rw [h1, h3]
  omega

/-- C6 as amended: the kept context blocks are always a rank-order
prefix of the ranked input, and the token estimate stays within
`maxContextTokens` except that the first block is charged
unconditionally — it is bounded by
`max maxContextTokens (50 + cost of the first block)`; in particular
when the first block fits, the estimate never exceeds the budget. -/
theorem claim_C6_token_budget_amended {α : Type} (formatScore : α → String)
    (chunks : List (RetrievalResult α)) (maxTokens : Nat) (includeMetadata : Bool) :
    (∃ n, (buildContextSection formatScore chunks maxTokens includeMetadata).sources
        = (chunks.take n).map pbSourceId) ∧
    (buildContextSection formatScore chunks maxTokens includeMetadata).estimatedTokens
      ≤ max maxTokens (50 + pbFirstCost formatScore includeMetadata chunks) := by
  constructor
  · obtain ⟨n, hn⟩ := bcsGo_sources_prefix formatScore includeMetadata maxTokens chunks 0
      "CONTEXT INFORMATION:\n\n" 50 []
    exact ⟨n, by simpa using hn⟩
  · cases chunks with
    | nil => simp [buildContextSection, bcsGo, pbFirstCost]
    | cons c rest =>
      have hstep : buildContextSection formatScore (c :: rest) maxTokens includeMetadata
          = bcsGo formatScore includeMetadata maxTokens rest 1
            ("CONTEXT INFORMATION:\n\n" ++ pbChunkBlock formatScore includeMetadata c)
            (50 + ((pbChunkBlock formatScore includeMetadata c).length + 3) / 4)
            [pbSourceId c] := by
        simp [buildContextSection, bcsGo]
      rw [hstep]
      have := bcsGo_tokens_le formatScore includeMetadata maxTokens rest 1
        ("CONTEXT INFORMATION:\n\n" ++ pbChunkBlock formatScore includeMetadata c)
        (50 + ((pbChunkBlock formatScore includeMetadata c).length + 3) / 4)
        [pbSourceId c] le_rfl
      simp only [pbFirstCost, pbChunkTokens]
      omega

/-- C10: the first (highest-ranked) block is appended before the budget
guard can fire (`i > 0` fails at position `0`), so it is always kept —
and consequently, for a first chunk whose block alone exceeds the
budget, the final estimate exceeds `maxContextTokens` (second conjunct:
a concrete such input, estimate `10052 > 0`). -/
theorem claim_C10_first_chunk_always_kept :
    (∀ {α : Type} (formatScore : α → String) (includeMetadata : Bool) (maxTokens : Nat)
      (c : RetrievalResult α) (rest : List (RetrievalResult α)),
      (buildContextSection formatScore (c :: rest) maxTokens includeMetadata).sources.head?
        = some (pbSourceId c)) ∧
    (buildContextSection (α := ℚ) (fun _ => "0.000")
        [⟨"c1", 1, ⟨"s", none, none, "cid", "now"⟩,
          String.mk (List.replicate 40000 'y')⟩] 0 false).estimatedTokens > 0 := by
  constructor
  · intro α formatScore includeMetadata maxTokens c rest
    have hstep : buildContextSection formatScore (c :: rest) maxTokens includeMetadata
        = bcsGo formatScore includeMetadata maxTokens rest 1
          ("CONTEXT INFORMATION:\n\n" ++ pbChunkBlock formatScore includeMetadata c)
          (50 + ((pbChunkBlock formatScore includeMetadata c).length + 3) / 4)
          [pbSourceId c] := by
      simp [buildContextSection, bcsGo]
    rw [hstep]
    obtain ⟨n, hn⟩ := bcsGo_sources_prefix formatScore includeMetadata maxTokens rest 1
      ("CONTEXT INFORMATION:\n\n" ++ pbChunkBlock formatScore includeMetadata c)
      (50 + ((pbChunkBlock formatScore includeMetadata c).length + 3) / 4)
      [pbSourceId c]
    rw [hn]
    rfl
  · have h1 := buildContextSection_singleton (α := ℚ) (fun _ => "0.000") false 0
      ⟨"c1", 1, ⟨"s", none, none, "cid", "now"⟩, String.mk (List.replicate 40000 'y')⟩
    have h3 := pbChunkTokens_no_meta (α := ℚ) (fun _ => "0.000") 1 40000 'y' "c1" "cid" "now"
    rw [h1, h3]
    omega

/-- Witness for C10's first conjunct at a concrete input. -/
theorem claim_C10_first_chunk_always_kept_witness :
    (buildContextSection (α := ℚ) (fun _ => "0.000")
        [⟨"c9", 1, ⟨"bookA", none, none, "cid9", "now"⟩, "hello"⟩] 7 false).sources.head?
      = some (pbSourceId (α := ℚ) ⟨"c9", 1, ⟨"bookA", none, none, "cid9", "now"⟩, "hello"⟩) :=
  claim_C10_first_chunk_always_kept.1 (fun _ => "0.000") false 7
    ⟨"c9", 1, ⟨"bookA", none, none, "cid9", "now"⟩, "hello"⟩ []

/-!
## Generation client (`lib/rag/gemini_client.ts`)

`generateFromPrompt` tries the primary model via `generateWithModel`
(which makes up to `maxRetries = 3` attempts with delays
`2^(attempt-1) * 1000` ms between failed attempts and rethrows the last
error), then on failure runs the fallback model through the *same*
retry loop, and only then throws `Generation failed: ...`.
`callGeminiAPI` validates the HTTP response: non-OK status, missing
candidates, missing/empty `content.parts`, a `SAFETY` finish reason and
empty text each produce their own error.  The network is modelled as an
oracle mapping the attempt number to an outcome; the run is instrumented
with the attempt counts and the backoff delays so that the retry policy
is visible in the result. -/

/-- One candidate of a Gemini response: `content` is `none` when
`content`/`content.parts` is missing, and each part's `text` field may
itself be missing. -/
structure GCandidate where
  content : Option (List (Option String))
  finishReason : Option String
  deriving Repr, DecidableEq

/-- The body of a successful (HTTP 200, well-formed JSON) response. -/
structure GeminiResp where
  candidates : List GCandidate
  deriving Repr, DecidableEq

/-- The outcome of one `fetch` to the generation endpoint. -/
inductive FetchOutcome where
  | httpError (status : Nat) (body : String)
  | ok (resp : GeminiResp)
  deriving Repr, DecidableEq

/-- JS `s.trim()` on Lean strings. -/
def jsTrimString (s : String) : String := String.mk (jsTrim s.toList)

/-- `callGeminiAPI` from `lib/rag/gemini_client.ts`: response validation
in source order — HTTP error, no candidates, invalid candidate
structure, `SAFETY` finish reason, empty text — then the trimmed text. -/
def callGeminiAPI (outcome : FetchOutcome) : Except String String :=
  match outcome with
  | .httpError status body =>
    .error ("Gemini API error (" ++ toString status ++ "): " ++ body)
  | .ok data =>
    match data.candidates with
    | [] => .error "No candidates returned from Gemini API"
    | candidate :: _ =>
      match candidate.content with
      | none => .error "Invalid candidate structure in Gemini response"
      | some parts =>
        match parts with
        | [] => .error "Invalid candidate structure in Gemini response"
        | p :: _ =>
          if candidate.finishReason = some "SAFETY" then
            .error "Response blocked by safety filters"
          else
            match p with
            | none => .error "Empty response from Gemini API"
            | some generatedText =>
              if (jsTrimString generatedText).length = 0 then
                .error "Empty response from Gemini API"
              else .ok (jsTrimString generatedText)

/-- The instrumented outcome of one `generateWithModel` run: the result,
how many attempts were made, and the backoff delays slept between
failed attempts. -/
structure GenAttempt where
  result : Except String String
  attempts : Nat
  delays : List Nat
  deriving Repr

/-- The retry loop of `generateWithModel`: `attempt` is the 1-based
attempt number, the second argument the number of attempts still
allowed; after a failed non-final attempt the loop sleeps
`2^(attempt-1) * 1000` ms. -/
def genLoop (call : Nat → Except String String) (attempt : Nat) :
    Nat → GenAttempt
  | 0 => ⟨.error "Maximum retry attempts exceeded", 0, []⟩
  | remaining + 1 =>
    match call attempt with
    | .ok r => ⟨.ok r, 1, []⟩
    | .error e =>
      if remaining = 0 then ⟨.error e, 1, []⟩
      else
        let next := genLoop call (attempt + 1) remaining
        ⟨next.result, next.attempts + 1, (2 ^ (attempt - 1) * 1000) :: next.delays⟩

/-- `generateWithModel` from `lib/rag/gemini_client.ts` (instrumented). -/
def generateWithModel (call : Nat → Except String String) (maxRetries : Nat) :
    GenAttempt :=
  genLoop call 1 maxRetries

/-- The instrumented outcome of one `generateFromPrompt` run. -/
structure GenRun where
  result : Except String String
  primaryAttempts : Nat
  primaryDelays : List Nat
  fallbackAttempts : Nat
  fallbackDelays : List Nat
  deriving Repr

/-- `generateFromPrompt` from `lib/rag/gemini_client.ts`: missing API
key throws; otherwise the primary model is run through the retry loop
and, if it still fails, the fallback model is run through the same
retry loop before `Generation failed: ...` is thrown. -/
def generateFromPrompt (hasKey : Bool) (primary fallback : Nat → FetchOutcome) :
    GenRun :=
  if !hasKey then
    ⟨.error "GEMINI_API_KEY environment variable is required for RAG functionality",
      0, [], 0, []⟩
  else
    let p := generateWithModel (fun a => callGeminiAPI (primary a)) 3
    match p.result with
    | .ok r => ⟨.ok r, p.attempts, p.delays, 0, []⟩
    | .error _ =>
      let f := generateWithModel (fun a => callGeminiAPI (fallback a)) 3
      match f.result with
      | .ok r => ⟨.ok r, p.attempts, p.delays, f.attempts, f.delays⟩
      | .error e2 =>
        ⟨.error ("Generation failed: " ++ e2), p.attempts, p.delays,
          f.attempts, f.delays⟩

/-- When every attempt the loop can make fails, the loop makes exactly
`remaining` attempts, returns the *last* error, and sleeps the
exponential-backoff delays between attempts. -/
theorem genLoop_all_fail (call : Nat → Except String String) (errs : Nat → String) :
    ∀ (remaining attempt : Nat), 1 ≤ attempt → 1 ≤ remaining →
      (∀ a, attempt ≤ a → a < attempt + remaining → call a = .error (errs a)) →
      genLoop call attempt remaining
        = ⟨.error (errs (attempt + remaining - 1)), remaining,
            (List.range (remaining - 1)).map (fun j => 2 ^ (attempt - 1 + j) * 1000)⟩ := by
  intro remaining
  induction remaining with
  | zero => intro attempt _ h; omega
  | succ k ih =>
    intro attempt hatt _ hfail
    have hcall : call attempt = .error (errs attempt) :=
      hfail attempt le_rfl (by omega)
    show genLoop call attempt (k + 1) = _
    rcases Nat.eq_zero_or_pos k with hk | hk
    · subst hk
      simp [genLoop, hcall]
    · have hrec := ih (attempt + 1) (by omega) hk
        (fun a ha1 ha2 => hfail a (by omega) (by omega))
      have hk0 : ¬(k = 0) := by omega
      have e1 : attempt + 1 + k - 1 = attempt + (k + 1) - 1 := by omega
      have e2 : k + 1 - 1 = (k - 1) + 1 := by omega
      simp only [genLoop, hcall, if_neg hk0, hrec, GenAttempt.mk.injEq]
      refine ⟨by rw [e1], trivial, ?_⟩
      rw [e2, List.range_succ_eq_map, List.map_cons, List.map_map]
      refine congrArg₂ _ ?_ ?_
      · norm_num
      · apply List.map_congr_left
        intro j _
        have e3 : attempt + 1 - 1 + j = attempt - 1 + (j + 1) := by omega
        show 2 ^ (attempt + 1 - 1 + j) * 1000 = 2 ^ (attempt - 1 + (j + 1)) * 1000
        rw [e3]

/-- When the attempts before `j` fail and attempt `j` succeeds (within
the allowed window), the loop returns attempt `j`'s text. -/
theorem genLoop_first_success (call : Nat → Except String String) (t : String) :
    ∀ (remaining attempt j : Nat), attempt ≤ j → j < attempt + remaining →
      (∀ a, attempt ≤ a → a < j → ∃ e, call a = .error e) →
      call j = .ok t →
      (genLoop call attempt remaining).result = .ok t := by
  intro remaining
  induction remaining with
  | zero => intro attempt j h1 h2; omega
  | succ k ih =>
    intro attempt j hle hlt hbefore hok
    rcases Nat.eq_or_lt_of_le hle with heq | hlt2
    · subst heq
      simp [genLoop, hok]
    · obtain ⟨e, he⟩ := hbefore attempt le_rfl hlt2
      have hrec := ih (attempt + 1) j (by omega) (by omega)
        (fun a ha1 ha2 => hbefore a (by omega) ha2) hok
      rcases Nat.eq_zero_or_pos k with hk | hk
      · omega
      · have hk0 : ¬(k = 0) := by omega
        simp [genLoop, he, if_neg hk0, hrec]

theorem genLoop_attempts_pos (call : Nat → Except String String) :
    ∀ (remaining attempt : Nat), 1 ≤ remaining →
      1 ≤ (genLoop call attempt remaining).attempts := by
  intro remaining
  cases remaining with
  | zero => intro attempt h; omega
  | succ k =>
    intro attempt _
    show 1 ≤ (genLoop call attempt (k + 1)).attempts
    simp only [genLoop]
    cases call attempt with
    | ok r => simp
    | error e =>
      by_cases hk : k = 0
      · simp [hk]
      · simp [hk]

/-- C7 counterexample: after the primary model exhausts its attempts the
*fallback is itself retried* — here it fails once and succeeds on its
second attempt, so two fallback calls are made (not one), and the run
still returns the fallback's text. -/
theorem claim_C7_single_fallback_call_counterexample :
    (generateFromPrompt true (fun _ => .httpError 500 "boom")
        (fun a => if a = 1 then .httpError 500 "f1"
          else .ok ⟨[⟨some [some "hello"], some "STOP"⟩]⟩)).fallbackAttempts = 2 ∧
    (generateFromPrompt true (fun _ => .httpError 500 "boom")
        (fun a => if a = 1 then .httpError 500 "f1"
          else .ok ⟨[⟨some [some "hello"], some "STOP"⟩]⟩)).result = .ok "hello" :=
  ⟨rfl, rfl⟩

/-- C7 as amended: the primary model is retried up to 3 times with
exponential backoff (1000 ms then 2000 ms); if it still fails, the
fallback model is run through the *same* retry loop (up to 3 attempts,
not a single call) before any error is raised; and when the primary
fails every attempt while the fallback succeeds at some attempt, the
returned text is the fallback's and the run does not end in an error. -/
theorem claim_C7_retry_and_fallback (primary fallback : Nat → FetchOutcome)
    (perrs : Nat → String) (t : String) (j : Nat)
    (hp : ∀ a, 1 ≤ a → a < 1 + 3 → callGeminiAPI (primary a) = .error (perrs a))
    (hj1 : 1 ≤ j) (hj3 : j < 1 + 3)
    (hfb : ∀ a, 1 ≤ a → a < j → ∃ e, callGeminiAPI (fallback a) = .error e)
    (hfj : callGeminiAPI (fallback j) = .ok t) :
    (generateFromPrompt true primary fallback).result = .ok t ∧
    (generateFromPrompt true primary fallback).primaryAttempts = 3 ∧
    (generateFromPrompt true primary fallback).primaryDelays = [1000, 2000] := by
  have hploop := genLoop_all_fail (fun a => callGeminiAPI (primary a)) perrs 3 1
    le_rfl (by omega) (fun a h1 h2 => hp a h1 h2)
  have hfloop := genLoop_first_success (fun a => callGeminiAPI (fallback a)) t 3 1 j
    hj1 hj3 hfb hfj
  obtain ⟨fr, fa, fd, hfdef⟩ : ∃ fr fa fd,
      genLoop (fun a => callGeminiAPI (fallback a)) 1 3 = ⟨fr, fa, fd⟩ :=
    ⟨_, _, _, rfl⟩
  rw [hfdef] at hfloop
  have hfr : fr = .ok t := hfloop
  subst hfr
  refine ⟨?_, ?_, ?_⟩ <;>
    simp [generateFromPrompt, generateWithModel, hploop, hfdef]
  decide

/-- Witness for C7 at concrete oracles: primary always returns HTTP 503,
fallback succeeds immediately with `"fb"`. -/
theorem claim_C7_retry_and_fallback_witness :
    (generateFromPrompt true (fun _ => .httpError 503 "p")
        (fun _ => .ok ⟨[⟨some [some "fb"], some "STOP"⟩]⟩)).result = .ok "fb" ∧
    (generateFromPrompt true (fun _ => .httpError 503 "p")
        (fun _ => .ok ⟨[⟨some [some "fb"], some "STOP"⟩]⟩)).primaryAttempts = 3 ∧
    (generateFromPrompt true (fun _ => .httpError 503 "p")
        (fun _ => .ok ⟨[⟨some [some "fb"], some "STOP"⟩]⟩)).primaryDelays
      = [1000, 2000] :=
  claim_C7_retry_and_fallback (fun _ => .httpError 503 "p")
    (fun _ => .ok ⟨[⟨some [some "fb"], some "STOP"⟩]⟩)
    (fun _ => "Gemini API error (503): p") "fb" 1
    (fun _ _ _ => rfl) le_rfl (by omega)
    (fun a h1 h2 => absurd (lt_of_le_of_lt h1 h2) (lt_irrefl 1))
    rfl

/-- C8 counterexample: a first attempt rejected by the safety filter is
followed by a second attempt with the *same* model and prompt (the retry
loop catches the safety error like any other), which here succeeds. -/
theorem claim_C8_safety_not_retried_counterexample :
    callGeminiAPI (.ok ⟨[⟨some [some "text"], some "SAFETY"⟩]⟩)
        = .error "Response blocked by safety filters" ∧
    (generateWithModel (fun a => callGeminiAPI (if a = 1
        then .ok ⟨[⟨some [some "text"], some "SAFETY"⟩]⟩
        else .ok ⟨[⟨some [some "ok2"], some "STOP"⟩]⟩)) 3).attempts = 2 ∧
    (generateWithModel (fun a => callGeminiAPI (if a = 1
        then .ok ⟨[⟨some [some "text"], some "SAFETY"⟩]⟩
        else .ok ⟨[⟨some [some "ok2"], some "STOP"⟩]⟩)) 3).result = .ok "ok2" :=
  ⟨rfl, rfl, rfl⟩

/-- C8 as amended: a `SAFETY` finish reason is surfaced as its own,
distinct error (`Response blocked by safety filters`), but the retry
loop treats it like every other failure: while attempts remain, the same
model is called again with the same prompt. -/
theorem claim_C8_safety_distinct_but_retried :
    (∀ (p : Option String) (parts : List (Option String)) (rest : List GCandidate),
      callGeminiAPI (.ok ⟨⟨some (p :: parts), some "SAFETY"⟩ :: rest⟩)
        = .error "Response blocked by safety filters") ∧
    (∀ (call : Nat → Except String String) (maxRetries : Nat),
      call 1 = .error "Response blocked by safety filters" → 2 ≤ maxRetries →
      2 ≤ (generateWithModel call maxRetries).attempts) := by
  constructor
  · intro p parts rest; rfl
  · intro call maxRetries h1 hm
    obtain ⟨k, rfl⟩ : ∃ k, maxRetries = k + 2 := ⟨maxRetries - 2, by omega⟩
    show 2 ≤ (genLoop call 1 (k + 2)).attempts
    have hpos := genLoop_attempts_pos call (k + 1) (1 + 1) (by omega)
    have hk0 : ¬(k + 1 = 0) := by omega
    simp only [genLoop, h1, if_neg hk0]
    show 2 ≤ (genLoop call (1 + 1) (k + 1)).attempts + 1
    omega

/-- Witness for C8 at concrete inputs: a safety-blocked response, and a
call function that always returns the safety error with 2 allowed
attempts. -/
theorem claim_C8_safety_distinct_but_retried_witness :
    callGeminiAPI (.ok ⟨[⟨some [some "blocked"], some "SAFETY"⟩]⟩)
        = .error "Response blocked by safety filters" ∧
    2 ≤ (generateWithModel
      (fun _ => .error "Response blocked by safety filters") 2).attempts :=
  ⟨claim_C8_safety_distinct_but_retried.1 (some "blocked") [] [],
    claim_C8_safety_distinct_but_retried.2
      (fun _ => .error "Response blocked by safety filters") 2 rfl le_rfl⟩

/-!
## `buildPrompt` (`lib/rag/prompt_builder.ts`) and the query endpoint
(`app/api/rag/ask/route.ts`)

`handleRagPipeline` returns the sentinel response as soon as the
retrieval confidence is `false`; otherwise it builds the prompt (format
`exam`, citation style `vtu`, metadata included, default budget 4000),
calls `generateStructuredResponse` (modelled as an oracle from the full
prompt to the parsed/defaulted structured object) and maps the citations
back onto the retrieved chunks.  JS truthiness (`x || y` with `''` and
`0` falsy) is modelled explicitly.  The wall-clock `search_time_ms`
debug field is omitted along with the retrieval metadata field it
copies. -/

/-- The `baseInstructions` template of `buildSystemPrompt`. -/
def baseInstructions : String :=
  "You are VTU EduMate, an AI assistant for Visvesvaraya Technological University (VTU). You provide accurate, comprehensive answers based on official VTU syllabus and course materials.\n\nCRITICAL RULES:\n1. Answer ONLY from the provided context\n2. If you cannot find an answer in the context, respond: \"Not found in VTU context.\"\n3. Cite facts using the format [source:page] after relevant sentences\n4. Follow VTU examination answer standards\n5. Return response as JSON object with keys: answer, citations, exam_format"

/-- The `formatInstructions` table (unknown keys fall back to
`detailed`). -/
def formatInstructionsFor (answerFormat : String) : String :=
  if answerFormat = "detailed" then
    "\nANSWER FORMAT:\n- Provide comprehensive explanations with examples\n- Include technical details and diagrams when relevant\n- Structure answers with clear headings and bullet points\n- Aim for university-level depth and clarity"
  else if answerFormat = "concise" then
    "\nANSWER FORMAT:\n- Provide concise, direct answers (150-300 words)\n- Focus on key concepts and essential information\n- Use bullet points for clarity\n- Suitable for quick reference"
  else if answerFormat = "exam" then
    "\nANSWER FORMAT:\n- Follow VTU examination answer patterns\n- Include proper technical terminology\n- Provide step-by-step explanations where applicable\n- Add relevant diagrams/flowchart descriptions\n- Structure for maximum marks in VTU exams"
  else
    "\nANSWER FORMAT:\n- Provide comprehensive explanations with examples\n- Include technical details and diagrams when relevant\n- Structure answers with clear headings and bullet points\n- Aim for university-level depth and clarity"

/-- The `citationInstructions` table (unknown keys fall back to
`vtu`). -/
def citationInstructionsFor (citationStyle : String) : String :=
  if citationStyle = "inline" then
    "Use inline citations: [source:page] immediately after facts."
  else if citationStyle = "numbered" then
    "Use numbered citations: [1], [2], etc. with reference list at end."
  else
    "Use VTU academic format: [source p.page] for citations."

/-- `buildSystemPrompt` from `lib/rag/prompt_builder.ts`. -/
def buildSystemPrompt (answerFormat citationStyle : String) : String :=
  baseInstructions ++ "\n\n" ++ formatInstructionsFor answerFormat ++
    "\n\nCITATION RULES:\n" ++ citationInstructionsFor citationStyle ++
    "\n\nEXAM FORMAT CLASSIFICATION:\n- two_mark: Brief, definitional answers (2-3 sentences)\n- six_mark: Moderate explanations with examples (1-2 paragraphs)\n- viva: Comprehensive analysis with applications (multiple sections)"

/-- The `formatHints` table of `buildUserPrompt` (fallback
`detailed`). -/
def formatHintFor (answerFormat : String) : String :=
  if answerFormat = "detailed" then "Provide a comprehensive, detailed answer."
  else if answerFormat = "concise" then "Provide a concise, focused answer."
  else if answerFormat = "exam" then
    "Provide an examination-style answer suitable for VTU standards."
  else "Provide a comprehensive, detailed answer."

/-- `buildUserPrompt` from `lib/rag/prompt_builder.ts`. -/
def buildUserPrompt (question contextText answerFormat : String) : String :=
  contextText ++ "\n\nQUESTION: " ++ question ++ "\n\nINSTRUCTIONS: " ++
    formatHintFor answerFormat ++
    " Base your answer strictly on the provided context. Include proper citations and classify the answer format (two_mark, six_mark, or viva) based on the question complexity and required depth.\n\nRespond in JSON format:\n\x7b\n  \"answer\": \"Your detailed answer here with [source:page] citations\",\n  \"citations\": [\x7b\"source\": \"filename\", \"page\": 1, \"chunk_id\": \"id\"\x7d],\n  \"exam_format\": \"six_mark\"\n\x7d"

/-- `BuiltPrompt` from `lib/rag/prompt_builder.ts`. -/
structure BuiltPrompt where
  systemPrompt : String
  userPrompt : String
  fullPrompt : String
  contextSources : List String
  tokenEstimate : Nat
  deriving Repr

/-- `buildPrompt` from `lib/rag/prompt_builder.ts`. -/
def buildPrompt {α : Type} (formatScore : α → String)
    (retrievedChunks : List (RetrievalResult α)) (question : String)
    (maxContextTokens : Nat) (includeMetadata : Bool)
    (answerFormat citationStyle : String) : BuiltPrompt :=
  let systemPrompt := buildSystemPrompt answerFormat citationStyle
  let ctx := buildContextSection formatScore retrievedChunks maxContextTokens includeMetadata
  let userPrompt := buildUserPrompt question ctx.contextText answerFormat
  { systemPrompt := systemPrompt
    userPrompt := userPrompt
    fullPrompt := systemPrompt ++ "\n\n" ++ userPrompt
    contextSources := ctx.sources
    tokenEstimate := ctx.estimatedTokens }

/-- One entry of the `citations` array of the parsed structured
response; every field may be missing. -/
structure JsonCitation where
  source : Option String
  page : Option Nat
  chunk_id : Option String
  deriving Repr, DecidableEq

/-- The validated/defaulted object produced by
`generateStructuredResponse`. -/
structure StructuredResp where
  answer : String
  citations : List JsonCitation
  exam_format : String
  deriving Repr, DecidableEq

/-- JS `x || d` for an optional string (`undefined` and `''` falsy). -/
def jsOrStr (v : Option String) (d : String) : String :=
  match v with
  | some s => if s ≠ "" then s else d
  | none => d

/-- A citation of the endpoint's response. -/
structure RagCitation where
  source : String
  page : Option Nat
  chunk_id : String
  deriving Repr, DecidableEq

/-- One entry of the endpoint's `sources` array. -/
structure RagSource where
  source : String
  page : Option Nat
  unit : Option String
  chunk_id : String
  score : ℝ

/-- The endpoint's `debug` block (without the wall-clock
`search_time_ms`). -/
structure RagDebug where
  scores : List ℝ
  retrieval_confidence : Bool
  total_chunks : Nat
  method : String

/-- The endpoint's response body. -/
structure RagResponse where
  answer : String
  citations : List RagCitation
  sources : List RagSource
  debug : Option RagDebug

/-- The citation mapping of `processGeminiResponse` in
`app/api/rag/ask/route.ts`. -/
def routeCitation (chunks : List (RetrievalResult ℝ)) (cit : JsonCitation) :
    RagCitation :=
  let matched := chunks.find? (fun ch =>
    some ch.metadata.source = cit.source ∨ some ch.metadata.chunk_id = cit.chunk_id)
  { source := jsOrStr cit.source (jsOrStr (matched.map (fun m => m.metadata.source)) "Unknown")
    page :=
      match cit.page with
      | some p => if p ≠ 0 then some p else matched.bind (fun m => m.metadata.page)
      | none => matched.bind (fun m => m.metadata.page)
    chunk_id := jsOrStr cit.chunk_id
      (jsOrStr (matched.map (fun m => m.metadata.chunk_id)) "unknown") }

/-- `processGeminiResponse` from `app/api/rag/ask/route.ts`: default the
answer, map the citations onto the retrieved chunks, and list the
retrieved chunks as sources. -/
def processGeminiRoute (g : StructuredResp)
    (retrievedChunks : List (RetrievalResult ℝ)) :
    String × List RagCitation × List RagSource :=
  (if g.answer ≠ "" then g.answer else "No answer generated",
   g.citations.map (routeCitation retrievedChunks),
   retrievedChunks.map (fun ch =>
     ⟨ch.metadata.source, ch.metadata.page, ch.metadata.unit,
       ch.metadata.chunk_id, ch.score⟩))

/-- `handleRagPipeline` from `app/api/rag/ask/route.ts`, from the point
where the retrieval result is available: low confidence short-circuits
to the sentinel response; otherwise the prompt is built (`exam`/`vtu`,
metadata included, default 4000-token budget), the generation oracle is
called on the full prompt, and its output is post-processed. -/
def handleRagPipeline (question : String) (retrievalResult : RetrievalResponse ℝ)
    (gen : String → StructuredResp) (formatScore : ℝ → String) : RagResponse :=
  if retrievalResult.confidence = false then
    { answer := "Not found in VTU context."
      citations := []
      sources := []
      debug := some ⟨retrievalResult.results.map (fun r => r.score), false,
        retrievalResult.metadata.total_chunks, "rag"⟩ }
  else
    let promptData := buildPrompt formatScore retrievalResult.results question
      4000 true "exam" "vtu"
    let geminiResponse := gen promptData.fullPrompt
    let processed := processGeminiRoute geminiResponse retrievalResult.results
    { answer := processed.1
      citations := processed.2.1
      sources := processed.2.2
      debug := some ⟨retrievalResult.results.map (fun r => r.score),
        retrievalResult.confidence, retrievalResult.metadata.total_chunks, "rag"⟩ }

/-- C1 counterexample: on a low-confidence retrieval the endpoint's
sentinel is the literal `"Not found in VTU context."`, not the claimed
`"Not found in context."`. -/
theorem claim_C1_sentinel_counterexample :
    (handleRagPipeline "What is a B-tree?"
        ⟨[], false, "What is a B-tree?", ⟨0, 5, 0, 0⟩⟩
        (fun _ => ⟨"", [], ""⟩) (fun _ => "0.000")).answer
      ≠ "Not found in context." ∧
    (handleRagPipeline "What is a B-tree?"
        ⟨[], false, "What is a B-tree?", ⟨0, 5, 0, 0⟩⟩
        (fun _ => ⟨"", [], ""⟩) (fun _ => "0.000")).answer
      = "Not found in VTU context." := by
  have h2 : (handleRagPipeline "What is a B-tree?"
      ⟨[], false, "What is a B-tree?", ⟨0, 5, 0, 0⟩⟩
      (fun _ => ⟨"", [], ""⟩) (fun _ => "0.000")).answer
      = "Not found in VTU context." := rfl
  refine ⟨?_, h2⟩
  rw [h2]
  decide

/-- C1 as amended: whenever retrieval confidence is `false` the endpoint
answers with the literal sentinel `"Not found in VTU context."` and
empty `citations` and `sources` arrays. -/
theorem claim_C1_sentinel (question : String)
    (retrievalResult : RetrievalResponse ℝ) (gen : String → StructuredResp)
    (formatScore : ℝ → String) (h : retrievalResult.confidence = false) :
    (handleRagPipeline question retrievalResult gen formatScore).answer
        = "Not found in VTU context." ∧
    (handleRagPipeline question retrievalResult gen formatScore).citations = [] ∧
    (handleRagPipeline question retrievalResult gen formatScore).sources = [] := by
  refine ⟨?_, ?_, ?_⟩ <;> simp [handleRagPipeline, h]

/-- Witness for C1 at a concrete low-confidence retrieval. -/
theorem claim_C1_sentinel_witness :
    (handleRagPipeline "q" ⟨[], false, "q", ⟨0, 3, 0, 0⟩⟩
        (fun _ => ⟨"", [], ""⟩) (fun _ => "0")).answer
        = "Not found in VTU context." ∧
    (handleRagPipeline "q" ⟨[], false, "q", ⟨0, 3, 0, 0⟩⟩
        (fun _ => ⟨"", [], ""⟩) (fun _ => "0")).citations = [] ∧
    (handleRagPipeline "q" ⟨[], false, "q", ⟨0, 3, 0, 0⟩⟩
        (fun _ => ⟨"", [], ""⟩) (fun _ => "0")).sources = [] :=
  claim_C1_sentinel "q" ⟨[], false, "q", ⟨0, 3, 0, 0⟩⟩
    (fun _ => ⟨"", [], ""⟩) (fun _ => "0") rfl

/-!
## The chunk-overlap invariant (C5)

Word-level reasoning about `chunkText`.  A string is *clean* when it is
nonempty and neither starts nor ends with whitespace; the chunk buffer
stays clean throughout the sentence loop, words of a clean string are
nonempty and whitespace-free, and word-splitting distributes over
`buffer ++ ' ' ++ sentence`.
-/

/-- The head character of `s` (if any) does not satisfy `p`. -/
def headNotP (p : Char → Bool) (s : JsStr) : Prop :=
  ∀ c, s.head? = some c → p c = false

/-- The last character of `s` (if any) does not satisfy `p`. -/
def lastNotP (p : Char → Bool) (s : JsStr) : Prop :=
  ∀ c, s.getLast? = some c → p c = false

theorem headNotP_nil (p : Char → Bool) : headNotP p [] := by
  intro c h; simp at h

theorem lastNotP_nil (p : Char → Bool) : lastNotP p [] := by
  intro c h; simp at h

theorem lastNotP_cons {p : Char → Bool} {x : Char} {a : JsStr}
    (h : lastNotP p (x :: a)) (ha : a ≠ []) : lastNotP p a := by
  intro c hc
  apply h c
  cases a with
  | nil => exact absurd rfl ha
  | cons y t => rw [List.getLast?_cons_cons]; exact hc

theorem lastNotP_tail {p : Char → Bool} {x : Char} {a : JsStr}
    (h : lastNotP p (x :: a)) : lastNotP p a := by
  by_cases ha : a = []
  · subst ha; exact lastNotP_nil p
  · exact lastNotP_cons h ha

theorem headNotP_of_all {p : Char → Bool} {s : JsStr}
    (h : ∀ c ∈ s, p c = false) : headNotP p s :=
  fun c hc => h c (List.mem_of_mem_head? hc)

theorem mem_of_getLast?_eq {α : Type} {l : List α} {a : α}
    (h : l.getLast? = some a) : a ∈ l := by
  obtain ⟨hne, heq⟩ := List.mem_getLast?_eq_getLast h
  rw [heq]; exact List.getLast_mem hne

theorem lastNotP_of_all {p : Char → Bool} {s : JsStr}
    (h : ∀ c ∈ s, p c = false) : lastNotP p s :=
  fun c hc => h c (mem_of_getLast?_eq hc)

/-- In the separator-skipping state the first character decides nothing
when it is not a separator. -/
theorem goSplit_true_eq_false (p : Char → Bool) (b : JsStr) (hb : headNotP p b) :
    goSplit p b [] true = goSplit p b [] false := by
  cases b with
  | nil => rfl
  | cons c r =>
    have hc : p c = false := hb c rfl
    simp [goSplit, hc]

/-- Splitting distributes over a separator placed after a piece that
does not end in a separator. -/
theorem goSplit_append (p : Char → Bool) (sep : Char) (hsep : p sep = true)
    (b : JsStr) :
    ∀ (a : JsStr) (cur : List Char) (inSep : Bool), lastNotP p a →
      (a ≠ [] ∨ inSep = false) →
      goSplit p (a ++ sep :: b) cur inSep
        = goSplit p a cur inSep ++ goSplit p b [] true := by
  intro a
  induction a with
  | nil =>
    intro cur inSep _ hor
    rcases hor with h | h
    · exact absurd rfl h
    · subst h
      simp [goSplit, hsep]
  | cons x a' ih =>
    intro cur inSep hlast hor
    by_cases hx : p x = true
    · have ha' : a' ≠ [] := by
        intro h
        subst h
        have := hlast x (by simp)
        rw [hx] at this
        simp at this
      have hlast' : lastNotP p a' := lastNotP_cons hlast ha'
      have hrec := ih [] true hlast' (Or.inl ha')
      cases inSep with
      | true =>
        show goSplit p (x :: (a' ++ sep :: b)) cur true = _
        simp [goSplit, hx, hrec]
      | false =>
        show goSplit p (x :: (a' ++ sep :: b)) cur false = _
        simp [goSplit, hx, hrec]
    · have hx' : p x = false := by
        cases hpx : p x
        · rfl
        · exact absurd hpx hx
      have hlast' : lastNotP p a' := lastNotP_tail hlast
      have hrec := ih (x :: cur) false hlast' (Or.inr rfl)
      show goSplit p (x :: (a' ++ sep :: b)) cur inSep = _
      simp only [goSplit, hx', Bool.false_eq_true, if_false, hrec]

/-- `split` distributes over one separator between a piece with no
trailing separator and a piece with no leading separator. -/
theorem splitRuns_append (p : Char → Bool) (sep : Char) (hsep : p sep = true)
    (a b : JsStr) (hlast : lastNotP p a) (hhead : headNotP p b) :
    splitRuns p (a ++ sep :: b) = splitRuns p a ++ splitRuns p b := by
  unfold splitRuns
  rw [goSplit_append p sep hsep b a [] false hlast (Or.inr rfl),
    goSplit_true_eq_false p b hhead]

/-- Characters of split pieces never satisfy `p`. -/
theorem goSplit_mem_not_p (p : Char → Bool) :
    ∀ (cs : JsStr) (cur : List Char) (inSep : Bool),
      (∀ c ∈ cur, p c = false) →
      ∀ w ∈ goSplit p cs cur inSep, ∀ c ∈ w, p c = false := by
  intro cs
  induction cs with
  | nil =>
    intro cur inSep hcur w hw c hc
    simp only [goSplit, List.mem_singleton] at hw
    subst hw
    exact hcur c (by simpa using hc)
  | cons x r ih =>
    intro cur inSep hcur w hw c hc
    by_cases hx : p x = true
    · cases inSep with
      | true =>
        have hred : goSplit p (x :: r) cur true = goSplit p r [] true := by
          simp [goSplit, hx]
        rw [hred] at hw
        exact ih [] true (by simp) w hw c hc
      | false =>
        have hred : goSplit p (x :: r) cur false
            = cur.reverse :: goSplit p r [] true := by
          simp [goSplit, hx]
        rw [hred] at hw
        rcases List.mem_cons.1 hw with hw' | hw'
        · subst hw'; exact hcur c (by simpa using hc)
        · exact ih [] true (by simp) w hw' c hc
    · have hx' : p x = false := by
        cases hpx : p x
        · rfl
        · exact absurd hpx hx
      simp only [goSplit, hx', Bool.false_eq_true, if_false] at hw
      refine ih (x :: cur) false ?_ w hw c hc
      intro c' hc'
      rcases List.mem_cons.1 hc' with h | h
      · subst h; exact hx'
      · exact hcur c' h

/-- `goSplit` never returns an empty list of pieces. -/
theorem goSplit_ne_nil_out (p : Char → Bool) :
    ∀ (cs : JsStr) (cur : List Char) (inSep : Bool),
      goSplit p cs cur inSep ≠ [] := by
  intro cs
  induction cs with
  | nil => intro cur inSep; simp [goSplit]
  | cons x r ih =>
    intro cur inSep
    by_cases hx : p x = true
    · cases inSep with
      | true => simpa only [goSplit, hx, if_true] using ih [] true
      | false => simp only [goSplit, hx, if_true]; simp
    · have hx' : p x = false := by
        cases hpx : p x
        · rfl
        · exact absurd hpx hx
      simpa only [goSplit, hx', Bool.false_eq_true, if_false] using ih (x :: cur) false

/-- Pieces produced from a string with no leading/trailing separator are
nonempty (joint statement for both loop states, by strong induction on
the length). -/
theorem goSplit_ne_nil (p : Char → Bool) :
    ∀ (n : Nat) (cs : JsStr), cs.length ≤ n → lastNotP p cs →
      ((∀ cur, (cur ≠ [] ∨ (cs ≠ [] ∧ headNotP p cs)) →
        ∀ w ∈ goSplit p cs cur false, w ≠ []) ∧
      (cs ≠ [] → ∀ w ∈ goSplit p cs [] true, w ≠ [])) := by
  intro n
  induction n with
  | zero =>
    intro cs hlen _
    have hnil : cs = [] := List.length_eq_zero.mp (Nat.le_zero.mp hlen)
    subst hnil
    constructor
    · intro cur hor w hw
      rcases hor with h | ⟨h, _⟩
      · simp only [goSplit, List.mem_singleton] at hw
        subst hw
        simpa using h
      · exact absurd rfl h
    · intro h; exact absurd rfl h
  | succ m ih =>
    intro cs hlen hlast
    cases cs with
    | nil =>
      constructor
      · intro cur hor w hw
        rcases hor with h | ⟨h, _⟩
        · simp only [goSplit, List.mem_singleton] at hw
          subst hw
          simpa using h
        · exact absurd rfl h
      · intro h; exact absurd rfl h
    | cons x r =>
      have hlenr : r.length ≤ m := by simpa using hlen
      have hlastr : lastNotP p r := lastNotP_tail hlast
      constructor
      · intro cur hor w hw
        by_cases hx : p x = true
        · have hcur : cur ≠ [] := by
            rcases hor with h | ⟨_, hh⟩
            · exact h
            · have := hh x rfl
              rw [hx] at this
              simp at this
          have hr : r ≠ [] := by
            intro h
            subst h
            have := hlast x (by simp)
            rw [hx] at this
            simp at this
          have hred : goSplit p (x :: r) cur false
              = cur.reverse :: goSplit p r [] true := by
            simp [goSplit, hx]
          rw [hred] at hw
          rcases List.mem_cons.1 hw with hw' | hw'
          · subst hw'; simpa using hcur
          · exact (ih r hlenr hlastr).2 hr w hw'
        · have hx' : p x = false := by
            cases hpx : p x
            · rfl
            · exact absurd hpx hx
          simp only [goSplit, hx', Bool.false_eq_true, if_false] at hw
          exact (ih r hlenr hlastr).1 (x :: cur) (Or.inl (by simp)) w hw
      · intro _ w hw
        by_cases hx : p x = true
        · have hr : r ≠ [] := by
            intro h
            subst h
            have := hlast x (by simp)
            rw [hx] at this
            simp at this
          have hred : goSplit p (x :: r) [] true = goSplit p r [] true := by
            simp [goSplit, hx]
          rw [hred] at hw
          exact (ih r hlenr hlastr).2 hr w hw
        · have hx' : p x = false := by
            cases hpx : p x
            · rfl
            · exact absurd hpx hx
          simp only [goSplit, hx', Bool.false_eq_true, if_false] at hw
          exact (ih r hlenr hlastr).1 [x] (Or.inl (by simp)) w hw

/-- A nonempty separator-free string splits into itself alone. -/
theorem goSplit_no_p_word (p : Char → Bool) :
    ∀ (w : JsStr) (cur : List Char), (∀ c ∈ w, p c = false) →
      goSplit p w cur false = [cur.reverse ++ w] := by
  intro w
  induction w with
  | nil => intro cur _; simp [goSplit]
  | cons c r ih =>
    intro cur h
    have hc : p c = false := h c (by simp)
    simp only [goSplit, hc, Bool.false_eq_true, if_false]
    rw [ih (c :: cur) (fun c' hc' => h c' (by simp [hc']))]
    simp

theorem splitRuns_single (p : Char → Bool) (w : JsStr)
    (h : ∀ c ∈ w, p c = false) : splitRuns p w = [w] := by
  unfold splitRuns
  rw [goSplit_no_p_word p w [] h]
  rfl

/-- A string is clean when it is nonempty with no leading or trailing
whitespace. -/
def CleanStr (s : JsStr) : Prop :=
  s ≠ [] ∧ headNotP isWsChar s ∧ lastNotP isWsChar s

theorem joinSpace_head? {w : JsStr} (t : List JsStr) (h : w ≠ []) :
    (joinSpace (w :: t)).head? = w.head? := by
  cases t with
  | nil => rfl
  | cons w2 t' =>
    show (w ++ ' ' :: joinSpace (w2 :: t')).head? = w.head?
    exact List.head?_append_of_ne_nil w h

/-- free-standing split of a space-joined word list. -/
theorem splitRuns_joinSpace (p : Char → Bool) (hsp : p ' ' = true) :
    ∀ ws : List JsStr, ws ≠ [] →
      (∀ w ∈ ws, w ≠ [] ∧ ∀ c ∈ w, p c = false) →
      splitRuns p (joinSpace ws) = ws := by
  intro ws
  induction ws with
  | nil => intro h; exact absurd rfl h
  | cons w ws' ih =>
    intro _ hprop
    cases ws' with
    | nil =>
      show splitRuns p w = [w]
      exact splitRuns_single p w (hprop w (by simp)).2
    | cons w2 t =>
      have hjoin : joinSpace (w :: w2 :: t) = w ++ ' ' :: joinSpace (w2 :: t) := rfl
      have hw := hprop w (by simp)
      have hw2 := hprop w2 (by simp)
      have hlast : lastNotP p w := lastNotP_of_all hw.2
      have hhead : headNotP p (joinSpace (w2 :: t)) := by
        intro c hc
        rw [joinSpace_head? t hw2.1] at hc
        exact hw2.2 c (List.mem_of_mem_head? hc)
      rw [hjoin, splitRuns_append p ' ' hsp w _ hlast hhead,
        splitRuns_single p w hw.2,
        ih (by simp) (fun x hx => hprop x (by simp [hx]))]
      rfl

theorem joinSpace_getLast? {w : JsStr} (t : List JsStr)
    (hall : ∀ x ∈ w :: t, x ≠ []) :
    ∃ x ∈ w :: t, (joinSpace (w :: t)).getLast? = x.getLast? := by
  induction t generalizing w with
  | nil => exact ⟨w, by simp, rfl⟩
  | cons w2 t' ih =>
    obtain ⟨x, hx, hlast⟩ := ih (w := w2) (fun x hx => hall x (by simp [hx]))
    refine ⟨x, by simp at hx ⊢; tauto, ?_⟩
    show (w ++ ' ' :: joinSpace (w2 :: t')).getLast? = x.getLast?
    rw [List.getLast?_append_of_ne_nil _ (by simp)]
    have hjoin_ne : joinSpace (w2 :: t') ≠ [] := by
      intro hc
      have := congrArg List.head? hc
      rw [joinSpace_head? t' (hall w2 (by simp))] at this
      cases hcw : w2.head? with
      | none => exact (hall w2 (by simp)) (List.head?_eq_none_iff.mp hcw)
      | some c => rw [hcw] at this; simp at this
    cases hj : joinSpace (w2 :: t') with
    | nil => exact absurd hj hjoin_ne
    | cons y ys => rw [List.getLast?_cons_cons, ← hj, hlast]

theorem joinSpace_clean (ws : List JsStr) (hne : ws ≠ [])
    (h : ∀ w ∈ ws, w ≠ [] ∧ ∀ c ∈ w, isWsChar c = false) :
    CleanStr (joinSpace ws) := by
  cases ws with
  | nil => exact absurd rfl hne
  | cons w t =>
    have hw := h w (by simp)
    refine ⟨?_, ?_, ?_⟩
    · intro hc
      have := congrArg List.head? hc
      rw [joinSpace_head? t hw.1] at this
      cases hcw : w.head? with
      | none => exact hw.1 (List.head?_eq_none_iff.mp hcw)
      | some c => rw [hcw] at this; simp at this
    · intro c hc
      rw [joinSpace_head? t hw.1] at hc
      exact hw.2 c (List.mem_of_mem_head? hc)
    · intro c hc
      obtain ⟨x, hx, hlast⟩ := joinSpace_getLast? t (fun x hx => (h x hx).1)
      rw [hlast] at hc
      exact (h x hx).2 c (mem_of_getLast?_eq hc)

theorem dropWhile_eq_self_of_headNotP {p : Char → Bool} {s : JsStr}
    (h : headNotP p s) : s.dropWhile p = s := by
  cases s with
  | nil => rfl
  | cons c r => simp [List.dropWhile_cons, h c rfl]

theorem headNotP_dropWhile (p : Char → Bool) (s : JsStr) :
    headNotP p (s.dropWhile p) := by
  induction s with
  | nil => exact headNotP_nil p
  | cons c r ih =>
    by_cases hc : p c = true
    · simpa [List.dropWhile_cons, hc] using ih
    · have hc' : p c = false := by
        cases hpc : p c
        · rfl
        · exact absurd hpc hc
      intro c' hc'mem
      rw [List.dropWhile_cons, if_neg (by simp [hc'])] at hc'mem
      simp only [List.head?_cons, Option.some.injEq] at hc'mem
      subst hc'mem
      exact hc'

theorem getLast?_dropWhile (p : Char → Bool) :
    ∀ s : JsStr, s.dropWhile p ≠ [] →
      (s.dropWhile p).getLast? = s.getLast? := by
  intro s
  induction s with
  | nil => intro h; exact absurd rfl h
  | cons c r ih =>
    intro hne
    by_cases hc : p c = true
    · have hd : (c :: r).dropWhile p = r.dropWhile p := by
        simp [List.dropWhile_cons, hc]
      rw [hd] at hne ⊢
      have hr : r ≠ [] := by
        intro h; subst h; simp at hne
      rw [ih hne]
      cases r with
      | nil => exact absurd rfl hr
      | cons y t => rw [List.getLast?_cons_cons]
    · have hd : (c :: r).dropWhile p = c :: r := by
        simp [List.dropWhile_cons]
        intro h
        exact absurd h hc
      rw [hd]

theorem jsTrim_eq_self {s : JsStr} (h : CleanStr s) : jsTrim s = s := by
  obtain ⟨hne, hh, hl⟩ := h
  unfold jsTrim
  rw [dropWhile_eq_self_of_headNotP hh]
  have hh2 : headNotP isWsChar s.reverse := by
    intro c hc
    rw [List.head?_reverse] at hc
    exact hl c hc
  rw [dropWhile_eq_self_of_headNotP hh2, List.reverse_reverse]

theorem jsTrim_clean (s : JsStr) : jsTrim s = [] ∨ CleanStr (jsTrim s) := by
  by_cases h2 : (s.dropWhile isWsChar).reverse.dropWhile isWsChar = []
  · left
    unfold jsTrim
    rw [h2]
    rfl
  · right
    have hform : jsTrim s
        = ((s.dropWhile isWsChar).reverse.dropWhile isWsChar).reverse := rfl
    refine ⟨?_, ?_, ?_⟩
    · rw [hform]
      simpa using h2
    · intro c hc
      rw [hform, List.head?_reverse, getLast?_dropWhile _ _ h2,
        List.getLast?_reverse] at hc
      exact headNotP_dropWhile isWsChar s c hc
    · intro c hc
      rw [hform, List.getLast?_reverse] at hc
      exact headNotP_dropWhile isWsChar (s.dropWhile isWsChar).reverse c hc

/-- The split of any string is a nonempty list of pieces. -/
theorem jsSplitWs_ne_nil (s : JsStr) : jsSplitWs s ≠ [] :=
  goSplit_ne_nil_out isWsChar s [] false

/-- Words of a clean string are nonempty and whitespace-free. -/
theorem words_clean {s : JsStr} (h : CleanStr s) :
    ∀ w ∈ jsSplitWs s, w ≠ [] ∧ ∀ c ∈ w, isWsChar c = false := by
  intro w hw
  obtain ⟨hne, hh, hl⟩ := h
  refine ⟨?_, ?_⟩
  · exact (goSplit_ne_nil isWsChar s.length s le_rfl hl).1 []
      (Or.inr ⟨hne, hh⟩) w hw
  · exact goSplit_mem_not_p isWsChar s [] false (by simp) w hw

/-- Word-splitting distributes over a single-space join of a string
with no trailing whitespace and a string with no leading whitespace. -/
theorem words_append (a b : JsStr) (hla : lastNotP isWsChar a)
    (hhb : headNotP isWsChar b) :
    jsSplitWs (a ++ ' ' :: b) = jsSplitWs a ++ jsSplitWs b :=
  splitRuns_append isWsChar ' ' (by decide) a b hla hhb

/-- Concatenating two clean strings with a single space is clean. -/
theorem clean_append_space {a b : JsStr} (ha : CleanStr a) (hb : CleanStr b) :
    CleanStr (a ++ ' ' :: b) := by
  obtain ⟨hane, hah, hal⟩ := ha
  obtain ⟨hbne, hbh, hbl⟩ := hb
  refine ⟨by simp, ?_, ?_⟩
  · intro c hc
    rw [List.head?_append_of_ne_nil _ hane] at hc
    exact hah c hc
  · intro c hc
    rw [List.getLast?_append_of_ne_nil _ (by simp)] at hc
    cases hb2 : b with
    | nil => exact absurd hb2 hbne
    | cons y ys =>
      rw [hb2, List.getLast?_cons_cons, ← hb2] at hc
      exact hbl c hc

/-- The words of `getOverlapText s ov` are exactly `slice(-ov)` of the
words of `s`, and the overlap text of a clean buffer is itself clean. -/
theorem getOverlapText_spec {s : JsStr} (h : CleanStr s) (ov : Nat) :
    jsSplitWs (getOverlapText s ov) = jsSliceNeg (jsSplitWs s) ov ∧
    CleanStr (getOverlapText s ov) := by
  unfold getOverlapText
  by_cases hle : (jsSplitWs s).length ≤ ov
  · rw [if_pos hle]
    refine ⟨?_, h⟩
    unfold jsSliceNeg
    by_cases h0 : ov = 0
    · rw [if_pos h0]
    · rw [if_neg h0, Nat.sub_eq_zero_of_le hle, List.drop_zero]
  · rw [if_neg hle]
    have hslice_ne : jsSliceNeg (jsSplitWs s) ov ≠ [] := by
      unfold jsSliceNeg
      by_cases h0 : ov = 0
      · rw [if_pos h0]; exact jsSplitWs_ne_nil s
      · rw [if_neg h0]
        intro hc
        have := congrArg List.length hc
        simp only [List.length_drop, List.length_nil] at this
        omega
    have hmem : ∀ w ∈ jsSliceNeg (jsSplitWs s) ov,
        w ≠ [] ∧ ∀ c ∈ w, isWsChar c = false := by
      intro w hw
      apply words_clean h
      unfold jsSliceNeg at hw
      by_cases h0 : ov = 0
      · rw [if_pos h0] at hw; exact hw
      · rw [if_neg h0] at hw; exact List.mem_of_mem_drop hw
    exact ⟨splitRuns_joinSpace isWsChar (by decide) _ hslice_ne hmem,
      joinSpace_clean _ hslice_ne hmem⟩

/-- The sentence string `jsTrim sRaw ++ ['.']` built by the loop is
clean whenever the trimmed raw sentence is nonempty. -/
theorem sentence_clean {sRaw : JsStr} (hs : (jsTrim sRaw).length > 0) :
    CleanStr (jsTrim sRaw ++ ['.']) := by
  rcases jsTrim_clean sRaw with h | h
  · rw [h] at hs; simp at hs
  · obtain ⟨hne, hh, hl⟩ := h
    refine ⟨by simp, ?_, ?_⟩
    · intro c hc
      rw [List.head?_append_of_ne_nil _ hne] at hc
      exact hh c hc
    · intro c hc
      rw [List.getLast?_append_of_ne_nil _ (by simp)] at hc
      simp only [List.getLast?_singleton, Option.some.injEq] at hc
      subst hc
      decide

/-- `w₂` begins with the last `ov` words of `w₁` (vacuous when `w₁` has
fewer than `ov` words). -/
def SeedLink (ov : Nat) (w₁ w₂ : List JsStr) : Prop :=
  ov ≤ w₁.length → w₂.take ov = w₁.drop (w₁.length - ov)

/-- The later chunk begins with the last `ov` words of the earlier
chunk. -/
def OverlapProp (ov : Nat) (c₁ c₂ : Chunk) : Prop :=
  SeedLink ov (jsSplitWs c₁.text) (jsSplitWs c₂.text)

/-- The sentence-loop invariant: an empty buffer means nothing was
emitted yet; a nonempty buffer is clean; consecutive emitted chunks
overlap; and the buffer still begins with the overlap seed of the last
emitted chunk. -/
def ChunkInv (ov : Nat) (st : ChunkState) : Prop :=
  (st.currentChunk = [] → st.chunks = []) ∧
  (st.currentChunk ≠ [] → CleanStr st.currentChunk) ∧
  List.Chain' (OverlapProp ov) st.chunks ∧
  (∀ c, st.chunks.getLast? = some c →
    SeedLink ov (jsSplitWs c.text) (jsSplitWs st.currentChunk))

/-- Extending the right word list preserves a seed link. -/
theorem seedLink_append (ov : Nat) (w₁ w₂ ws : List JsStr)
    (h : SeedLink ov w₁ w₂) : SeedLink ov w₁ (w₂ ++ ws) := by
  intro hov
  have h2 := h hov
  have hlen2 : ov ≤ w₂.length := by
    have hl := congrArg List.length h2
    simp only [List.length_take, List.length_drop] at hl
    omega
  rw [List.take_append_of_le_length hlen2]
  exact h2

/-- A word list reseeded with `slice(-ov)` of `ws` is seed-linked to
`ws`. -/
theorem seedLink_slice (ov : Nat) (ws rest : List JsStr) :
    SeedLink ov ws (jsSliceNeg ws ov ++ rest) := by
  intro hov
  unfold jsSliceNeg
  by_cases h0 : ov = 0
  · subst h0
    simp [List.drop_length]
  · rw [if_neg h0]
    have hlen : (ws.drop (ws.length - ov)).length = ov := by
      simp only [List.length_drop]
      omega
    rw [List.take_left' hlen]

/-- One loop iteration preserves the invariant. -/
theorem processSentence_inv (filename : String) (maxW ov : Nat)
    (st : ChunkState) (sRaw : JsStr) (hs : (jsTrim sRaw).length > 0)
    (hinv : ChunkInv ov st) :
    ChunkInv ov (processSentence filename maxW ov st sRaw) := by
  obtain ⟨h1, h2, h3, h4⟩ := hinv
  have hcleanS : CleanStr (jsTrim sRaw ++ ['.']) := sentence_clean hs
  simp only [processSentence]
  by_cases hcond : st.currentWordCount + (jsSplitWs (jsTrim sRaw ++ ['.'])).length > maxW
      ∧ st.currentChunk.length > 0
  · rw [if_pos hcond]
    have hcur_ne : st.currentChunk ≠ [] := by
      intro h
      rw [h] at hcond
      simp at hcond
    have hclean := h2 hcur_ne
    have htrim : jsTrim st.currentChunk = st.currentChunk := jsTrim_eq_self hclean
    obtain ⟨hovw, hovclean⟩ := getOverlapText_spec hclean ov
    have hovne : getOverlapText st.currentChunk ov ≠ [] := hovclean.1
    have hoflen : (getOverlapText st.currentChunk ov).length > 0 :=
      List.length_pos.mpr hovne
    rw [if_pos hoflen]
    simp only [List.append_assoc, List.singleton_append]
    have hnewclean : CleanStr (getOverlapText st.currentChunk ov
        ++ ' ' :: (jsTrim sRaw ++ ['.'])) :=
      clean_append_space hovclean hcleanS
    have hwords : jsSplitWs (getOverlapText st.currentChunk ov
          ++ ' ' :: (jsTrim sRaw ++ ['.']))
        = jsSliceNeg (jsSplitWs st.currentChunk) ov
          ++ jsSplitWs (jsTrim sRaw ++ ['.']) := by
      rw [words_append _ _ hovclean.2.2 hcleanS.2.1, hovw]
    refine ⟨?_, ?_, ?_, ?_⟩
    · intro hc
      exact absurd hc hnewclean.1
    · intro _
      exact hnewclean
    · apply List.chain'_append.mpr
      refine ⟨h3, List.chain'_singleton _, ?_⟩
      intro x hx y hy
      simp only [List.head?_cons, Option.mem_def, Option.some.injEq] at hy
      subst hy
      have hsl := h4 x hx
      show SeedLink ov (jsSplitWs x.text)
        (jsSplitWs (createChunk (jsTrim st.currentChunk) filename st.chunkIndex).text)
      show SeedLink ov (jsSplitWs x.text) (jsSplitWs (jsTrim st.currentChunk))
      rw [htrim]
      exact hsl
    · intro c hc
      rw [List.getLast?_concat] at hc
      simp only [Option.some.injEq] at hc
      subst hc
      show SeedLink ov (jsSplitWs (jsTrim st.currentChunk))
        (jsSplitWs (getOverlapText st.currentChunk ov ++ ' ' :: (jsTrim sRaw ++ ['.'])))
      rw [htrim, hwords]
      exact seedLink_slice ov _ _
  · rw [if_neg hcond]
    by_cases hcur : st.currentChunk = []
    · refine ⟨?_, ?_, ?_, ?_⟩
      · intro _
        exact h1 hcur
      · intro _
        rw [hcur]
        simpa using hcleanS
      · exact h3
      · intro c hc
        rw [h1 hcur] at hc
        simp at hc
    · have hclean := h2 hcur
      have hiflen : st.currentChunk.length > 0 := List.length_pos.mpr hcur
      rw [if_pos hiflen]
      simp only [List.append_assoc, List.singleton_append]
      have hnewclean : CleanStr (st.currentChunk ++ ' ' :: (jsTrim sRaw ++ ['.'])) :=
        clean_append_space hclean hcleanS
      refine ⟨?_, ?_, ?_, ?_⟩
      · intro hc
        exact absurd hc hnewclean.1
      · intro _
        exact hnewclean
      · exact h3
      · intro c hc
        have hsl := h4 c hc
        show SeedLink ov (jsSplitWs c.text)
          (jsSplitWs (st.currentChunk ++ ' ' :: (jsTrim sRaw ++ ['.'])))
        rw [words_append _ _ hclean.2.2 hcleanS.2.1]
        exact seedLink_append ov _ _ _ hsl

/-- The trailing-buffer emission step preserves chunk overlap. -/
theorem finalize_chain' (filename : String) (ov : Nat) (st : ChunkState)
    (h : ChunkInv ov st) :
    List.Chain' (OverlapProp ov)
      (if (jsTrim st.currentChunk).length > 0 then
        st.chunks ++ [createChunk (jsTrim st.currentChunk) filename st.chunkIndex]
      else st.chunks) := by
  obtain ⟨h1, h2, h3, h4⟩ := h
  by_cases hfin : (jsTrim st.currentChunk).length > 0
  · rw [if_pos hfin]
    have hne : st.currentChunk ≠ [] := by
      intro hc
      rw [hc] at hfin
      exact absurd hfin (by decide)
    have hclean := h2 hne
    have htrim := jsTrim_eq_self hclean
    apply List.chain'_append.mpr
    refine ⟨h3, List.chain'_singleton _, ?_⟩
    intro x hx y hy
    simp only [List.head?_cons, Option.mem_def, Option.some.injEq] at hy
    subst hy
    have hsl := h4 x hx
    show SeedLink ov (jsSplitWs x.text) (jsSplitWs (jsTrim st.currentChunk))
    rw [htrim]
    exact hsl
  · rw [if_neg hfin]
    exact h3

/-- Every pair of consecutive chunks produced by `chunkText` satisfies
the overlap property. -/
theorem chunkText_chain' (text : JsStr) (filename : String) (maxW ov : Nat) :
    List.Chain' (OverlapProp ov) (chunkText text filename maxW ov) := by
  have hfold : ∀ (ss : List JsStr), (∀ s ∈ ss, (jsTrim s).length > 0) →
      ∀ st, ChunkInv ov st →
        ChunkInv ov (ss.foldl (processSentence filename maxW ov) st) := by
    intro ss
    induction ss with
    | nil => intro _ st h; exact h
    | cons s t ih =>
      intro hall st h
      exact ih (fun x hx => hall x (by simp [hx])) _
        (processSentence_inv filename maxW ov st s (hall s (by simp)) h)
  have hsent : ∀ s ∈ (splitRuns isSentDelim text).filter
      (fun s => (jsTrim s).length > 0), (jsTrim s).length > 0 := by
    intro s hs
    have h := (List.mem_filter.mp hs).2
    exact of_decide_eq_true h
  have hinv := hfold _ hsent ⟨[], 0, 0, []⟩
    ⟨fun _ => rfl, fun h => absurd rfl h, List.chain'_nil, fun c hc => by simp at hc⟩
  simp only [chunkText]
  exact finalize_chain' filename ov _ hinv

/-- C5 counterexample (at `maxWords = 5 > 3 = overlapWords`): the input
produces three chunks, and for the consecutive non-final pair
(chunk 0, chunk 1) the first 3 words of chunk 1 are not the last 3
words of chunk 0 — the first chunk has only 2 words, so the reseeding
copied all of them instead. -/
theorem claim_C5_chunk_overlap_counterexample :
    (chunkText ("a b. c d e f g h. i.".toList) "doc" 5 3).length = 3 ∧
    (chunkText ("a b. c d e f g h. i.".toList) "doc" 5 3).map Chunk.text
      = ["a b.".toList, "a b. c d e f g h.".toList, "f g h. i.".toList] ∧
    ¬((jsSplitWs ("a b. c d e f g h.".toList)).take 3
      = (jsSplitWs ("a b.".toList)).drop ((jsSplitWs ("a b.".toList)).length - 3)) := by
  refine ⟨by decide, by decide, by decide⟩

/-- C5 as amended: for every document and `overlapWords < maxWords`,
each pair of consecutive chunks *whose earlier chunk has at least
`overlapWords` words* shares them — the first `overlapWords` words of
the later chunk are the last `overlapWords` words of the earlier one
(as before, the final chunk is exempted). -/
theorem claim_C5_chunk_overlap_amended (text : JsStr) (filename : String)
    (chunkSizeWords overlapWords : Nat)
    (_hlt : overlapWords < chunkSizeWords) (i : Nat)
    (hi : i + 2 < (chunkText text filename chunkSizeWords overlapWords).length)
    (hw : overlapWords ≤ (jsSplitWs ((chunkText text filename chunkSizeWords
      overlapWords).getD i ⟨"", []⟩).text).length) :
    (jsSplitWs ((chunkText text filename chunkSizeWords overlapWords).getD (i + 1)
        ⟨"", []⟩).text).take overlapWords
      = (jsSplitWs ((chunkText text filename chunkSizeWords overlapWords).getD i
          ⟨"", []⟩).text).drop
        ((jsSplitWs ((chunkText text filename chunkSizeWords overlapWords).getD i
          ⟨"", []⟩).text).length - overlapWords) := by
  have hch := chunkText_chain' text filename chunkSizeWords overlapWords
  rw [List.chain'_iff_get] at hch
  have h := hch i (by omega)
  have e1 : (chunkText text filename chunkSizeWords overlapWords).getD i ⟨"", []⟩
      = (chunkText text filename chunkSizeWords overlapWords).get ⟨i, by omega⟩ :=
    List.getD_eq_get _ _ (by omega)
  have e2 : (chunkText text filename chunkSizeWords overlapWords).getD (i + 1) ⟨"", []⟩
      = (chunkText text filename chunkSizeWords overlapWords).get ⟨i + 1, by omega⟩ :=
    List.getD_eq_get _ _ (by omega)
  rw [e1] at hw
  rw [e1, e2]
  exact h hw

/-- Witness for the amended C5 at a concrete document
(`maxWords = 5`, `overlapWords = 2`, pair (chunk 0, chunk 1)). -/
theorem claim_C5_chunk_overlap_amended_witness :
    (jsSplitWs ((chunkText ("a b c d e f. g h i j k l. m n o p q r.".toList)
        "doc" 5 2).getD 1 ⟨"", []⟩).text).take 2
      = (jsSplitWs ((chunkText ("a b c d e f. g h i j k l. m n o p q r.".toList)
          "doc" 5 2).getD 0 ⟨"", []⟩).text).drop
        ((jsSplitWs ((chunkText ("a b c d e f. g h i j k l. m n o p q r.".toList)
          "doc" 5 2).getD 0 ⟨"", []⟩).text).length - 2) :=
  claim_C5_chunk_overlap_amended ("a b c d e f. g h i j k l. m n o p q r.".toList)
    "doc" 5 2 (by decide) 0 (by decide) (by decide)

end VtuEduMate
